import Mathlib

/-!
Shallow embedding of the meerkat entity-lifecycle engine.

Go strings are modelled as Lean `String` (comparison on strings is
byte-lexicographic in Go and codepoint-lexicographic here; the two orders
agree because UTF-8 preserves codepoint order).  Go maps are modelled as
association lists with overwrite-on-insert semantics; map iteration order,
which Go leaves unspecified, is determinised to insertion order.
-/

namespace Meerkat

/-! ### Association-list maps (model of Go `map[string]T`) -/

def lookupA {α : Type} (k : String) : List (String × α) → Option α
  | [] => none
  | (k1, v1) :: t => if k1 = k then some v1 else lookupA k t

def insertA {α : Type} (k : String) (v : α) : List (String × α) → List (String × α)
  | [] => [(k, v)]
  | (k1, v1) :: t => if k1 = k then (k, v) :: t else (k1, v1) :: insertA k v t

def eraseA {α : Type} (k : String) (l : List (String × α)) : List (String × α) :=
  l.filter (fun p => p.1 ≠ k)

def keysOf {α : Type} (l : List (String × α)) : List String :=
  l.map (fun p => p.1)

@[simp] theorem lookupA_nil {α : Type} (k : String) : lookupA (α := α) k [] = none := rfl

@[simp] theorem lookupA_cons {α : Type} (k k1 : String) (v1 : α) (t : List (String × α)) :
    lookupA k ((k1, v1) :: t) = if k1 = k then some v1 else lookupA k t := rfl

@[simp] theorem keysOf_nil {α : Type} : keysOf (α := α) [] = [] := rfl

@[simp] theorem keysOf_cons {α : Type} (p : String × α) (t : List (String × α)) :
    keysOf (p :: t) = p.1 :: keysOf t := rfl

theorem lookupA_insertA_self {α : Type} (k : String) (v : α) (l : List (String × α)) :
    lookupA k (insertA k v l) = some v := by
  induction l with
  | nil => simp [insertA, lookupA]
  | cons p t ih =>
    obtain ⟨k1, v1⟩ := p
    by_cases h : k1 = k <;> simp [insertA, lookupA, h, ih]

theorem lookupA_insertA_ne {α : Type} (k k0 : String) (v : α) (l : List (String × α))
    (h : k0 ≠ k) : lookupA k0 (insertA k v l) = lookupA k0 l := by
  induction l with
  | nil => simp [insertA, lookupA, Ne.symm h]
  | cons p t ih =>
    obtain ⟨k1, v1⟩ := p
    by_cases h1 : k1 = k
    · subst h1
      simp [insertA, lookupA, Ne.symm h]
    · simp [insertA, lookupA, h1, ih]

theorem insertA_self_eq {α : Type} (k : String) (v : α) (l : List (String × α))
    (h : lookupA k l = some v) : insertA k v l = l := by
  induction l with
  | nil => simp [lookupA] at h
  | cons p t ih =>
    obtain ⟨k1, v1⟩ := p
    by_cases h1 : k1 = k
    · subst h1
      simp [lookupA] at h
      simp [insertA, h]
    · simp [lookupA, h1] at h
      simp [insertA, h1, ih h]

theorem insertA_insertA_same {α : Type} (k : String) (v v0 : α) (l : List (String × α)) :
    insertA k v (insertA k v0 l) = insertA k v l := by
  induction l with
  | nil => simp [insertA]
  | cons p t ih =>
    obtain ⟨k1, v1⟩ := p
    by_cases h1 : k1 = k <;> simp [insertA, h1, ih]

theorem keysOf_insertA {α : Type} (k : String) (v : α) (l : List (String × α)) :
    keysOf (insertA k v l) = if k ∈ keysOf l then keysOf l else keysOf l ++ [k] := by
  induction l with
  | nil => simp [insertA]
  | cons p t ih =>
    obtain ⟨k1, v1⟩ := p
    by_cases h1 : k1 = k
    · subst h1
      simp [insertA]
    · by_cases h2 : k ∈ keysOf t <;>
        simp [insertA, h1, ih, h2, Ne.symm h1]

theorem lookupA_isSome_iff_mem_keys {α : Type} (k : String) (l : List (String × α)) :
    (lookupA k l).isSome ↔ k ∈ keysOf l := by
  induction l with
  | nil => simp [lookupA]
  | cons p t ih =>
    obtain ⟨k1, v1⟩ := p
    by_cases h : k1 = k
    · subst h
      simp [lookupA]
    · simp [lookupA, h, ih, Ne.symm h]

theorem lookupA_eq_none_iff_not_mem {α : Type} (k : String) (l : List (String × α)) :
    lookupA k l = none ↔ k ∉ keysOf l := by
  rw [← lookupA_isSome_iff_mem_keys]
  cases h : lookupA k l <;> simp [h]

/-! ### Characters and split/join (model of `strings.Split` / serialisation) -/

/-- Model of splitting a string on a single-character separator
(`strings.SplitSeq(str, IDSeparator)` / `strings.Split(label, "=")`).
Always returns a non-empty list of parts. -/
def splitOnChar (sep : Char) : List Char → List (List Char)
  | [] => [[]]
  | c :: cs =>
    match splitOnChar sep cs with
    | [] => [[]]
    | t :: ts => if c = sep then [] :: t :: ts else (c :: t) :: ts

/-- Joining strings with a single-character separator (the `printSep` /
`formatKV` loop inside `EntityID.Canonical`). -/
def joinSep (sep : Char) : List (List Char) → List Char
  | [] => []
  | [t] => t
  | t :: t2 :: ts => t ++ sep :: joinSep sep (t2 :: ts)

theorem splitOnChar_ne_nil (sep : Char) (l : List Char) : splitOnChar sep l ≠ [] := by
  cases l with
  | nil => simp [splitOnChar]
  | cons c cs =>
    simp only [splitOnChar]
    match h : splitOnChar sep cs with
    | [] => simp
    | t :: ts => by_cases hc : c = sep <;> simp [hc]

@[simp] theorem splitOnChar_nil (sep : Char) : splitOnChar sep [] = [[]] := rfl

theorem splitOnChar_cons_ne (sep c : Char) (cs : List Char) (h : c ≠ sep) :
    splitOnChar sep (c :: cs) =
      (c :: (splitOnChar sep cs).headI) :: (splitOnChar sep cs).tail := by
  simp only [splitOnChar]
  match h2 : splitOnChar sep cs with
  | [] => exact absurd h2 (splitOnChar_ne_nil sep cs)
  | t :: ts => simp [h, List.headI]

theorem splitOnChar_cons_sep (sep : Char) (cs : List Char) :
    splitOnChar sep (sep :: cs) = [] :: splitOnChar sep cs := by
  simp only [splitOnChar]
  match h2 : splitOnChar sep cs with
  | [] => exact absurd h2 (splitOnChar_ne_nil sep cs)
  | t :: ts => simp

/-- Splitting a clean segment followed by the separator peels off the segment. -/
theorem splitOnChar_append_sep (sep : Char) (a rest : List Char) (ha : sep ∉ a) :
    splitOnChar sep (a ++ sep :: rest) = a :: splitOnChar sep rest := by
  induction a with
  | nil => simp [splitOnChar_cons_sep]
  | cons c cs ih =>
    have hc : c ≠ sep := fun h => ha (h ▸ List.mem_cons_self c cs)
    have hcs : sep ∉ cs := fun h => ha (List.mem_cons_of_mem c h)
    rw [List.cons_append, splitOnChar_cons_ne sep c _ hc, ih hcs]
    simp [List.headI]

/-- A clean string is returned whole. -/
theorem splitOnChar_clean (sep : Char) (a : List Char) (ha : sep ∉ a) :
    splitOnChar sep a = [a] := by
  induction a with
  | nil => rfl
  | cons c cs ih =>
    have hc : c ≠ sep := fun h => ha (h ▸ List.mem_cons_self c cs)
    have hcs : sep ∉ cs := fun h => ha (List.mem_cons_of_mem c h)
    rw [splitOnChar_cons_ne sep c _ hc, ih hcs]
    simp [List.headI]

/-- `splitOnChar` inverts `joinSep` when no part contains the separator. -/
theorem splitOnChar_joinSep (sep : Char) (parts : List (List Char))
    (hne : parts ≠ []) (hcl : ∀ p ∈ parts, sep ∉ p) :
    splitOnChar sep (joinSep sep parts) = parts := by
  induction parts with
  | nil => exact absurd rfl hne
  | cons t ts ih =>
    cases ts with
    | nil => exact splitOnChar_clean sep t (hcl t (List.mem_cons_self t []))
    | cons t2 ts2 =>
      have h1 : sep ∉ t := hcl t (List.mem_cons_self t _)
      have h2 : ∀ p ∈ t2 :: ts2, sep ∉ p := fun p hp => hcl p (List.mem_cons_of_mem t hp)
      rw [joinSep, splitOnChar_append_sep sep t _ h1, ih (by simp) h2]

/-! ### Entity identity (`pkg/utils`: `EntityID`, `Canonical`, `ParseEntityID`) -/

/-- `const IDSeparator = "|"` (single character). -/
def IDSeparator : Char := '|'

/-- `type EntityID struct { Kind string; Labels map[string]string }`. -/
structure EntityID where
  Kind : String
  Labels : List (String × String)
deriving DecidableEq, Repr

instance : Inhabited EntityID := ⟨⟨"", []⟩⟩

/-- Lexicographic comparison of character lists by codepoint.  Go's
`sort.Strings` compares UTF-8 bytes; byte order and codepoint order agree
under UTF-8 encoding. -/
def charListLe : List Char → List Char → Bool
  | [], _ => true
  | _ :: _, [] => false
  | a :: as, b :: bs =>
    if a < b then true
    else if b < a then false
    else charListLe as bs

/-- The string order used by `sort.Strings`. -/
def strLeP (a b : String) : Prop := charListLe a.data b.data = true

instance : DecidableRel strLeP := by
  unfold strLeP; infer_instance

theorem charListLe_total (a b : List Char) : charListLe a b = true ∨ charListLe b a = true := by
  induction a generalizing b with
  | nil => left; rfl
  | cons x xs ih =>
    cases b with
    | nil => right; rfl
    | cons y ys =>
      rcases lt_trichotomy x y with h | h | h
      · left; simp [charListLe, h]
      · subst h
        rcases ih ys with h2 | h2
        · left; simp [charListLe, lt_irrefl, h2]
        · right; simp [charListLe, lt_irrefl, h2]
      · right; simp [charListLe, h]

theorem charListLe_trans {a b c : List Char} (h1 : charListLe a b = true)
    (h2 : charListLe b c = true) : charListLe a c = true := by
  induction a generalizing b c with
  | nil => rfl
  | cons x xs ih =>
    cases b with
    | nil => simp [charListLe] at h1
    | cons y ys =>
      cases c with
      | nil => simp [charListLe] at h2
      | cons z zs =>
        rcases lt_trichotomy x y with hxy | hxy | hxy
        · rcases lt_trichotomy y z with hyz | hyz | hyz
          · simp [charListLe, lt_trans hxy hyz]
          · subst hyz; simp [charListLe, hxy]
          · simp [charListLe, asymm hyz, hyz] at h2
        · subst hxy
          simp only [charListLe, lt_irrefl, if_false] at h1
          rcases lt_trichotomy x z with hxz | hxz | hxz
          · simp [charListLe, hxz]
          · subst hxz
            simp only [charListLe, lt_irrefl, if_false] at h2 ⊢
            exact ih h1 h2
          · simp [charListLe, asymm hxz, hxz] at h2
        · simp [charListLe, asymm hxy, hxy] at h1

theorem charListLe_antisymm {a b : List Char} (h1 : charListLe a b = true)
    (h2 : charListLe b a = true) : a = b := by
  induction a generalizing b with
  | nil =>
    cases b with
    | nil => rfl
    | cons y ys => simp [charListLe] at h2
  | cons x xs ih =>
    cases b with
    | nil => simp [charListLe] at h1
    | cons y ys =>
      rcases lt_trichotomy x y with hxy | hxy | hxy
      · simp [charListLe, asymm hxy, hxy] at h2
      · subst hxy
        simp only [charListLe, lt_irrefl, if_false] at h1 h2
        rw [ih h1 h2]
      · simp [charListLe, asymm hxy, hxy] at h1


instance : IsTotal String strLeP :=
  ⟨fun a b => charListLe_total a.data b.data⟩

instance : IsTrans String strLeP :=
  ⟨fun _ _ _ h1 h2 => charListLe_trans h1 h2⟩

instance : IsAntisymm String strLeP :=
  ⟨fun a b h1 h2 => by
    cases a
    cases b
    exact congrArg String.mk (charListLe_antisymm h1 h2)⟩

instance : IsRefl String strLeP :=
  ⟨fun a => (charListLe_total a.data a.data).elim id id⟩

/-- Ascending sort of the key slice (`sort.Strings(keys)`). -/
def sortStrings (l : List String) : List String :=
  List.insertionSort strLeP l

theorem sortStrings_perm (l : List String) : List.Perm (sortStrings l) l :=
  List.perm_insertionSort strLeP l

theorem sortStrings_sorted (l : List String) : List.Sorted strLeP (sortStrings l) :=
  List.sorted_insertionSort strLeP l

/-- Ascending sort is deterministic in the key multiset: permutation-equal
key lists sort identically (the determinism behind `sort.Strings`). -/
theorem sortStrings_perm_eq {l1 l2 : List String} (h : List.Perm l1 l2) :
    sortStrings l1 = sortStrings l2 :=
  List.eq_of_perm_of_sorted (r := strLeP)
    (((sortStrings_perm l1).trans h).trans (sortStrings_perm l2).symm)
    (sortStrings_sorted l1) (sortStrings_sorted l2)

/-- Go map read `e.Labels[k]` (missing key yields the zero value `""`). -/
def labelOf (e : EntityID) (k : String) : String :=
  (lookupA k e.Labels).getD ""

/-- The `key=value` tokens of `EntityID.Canonical`, in sorted key order.
The synthetic key `kind` is appended to the label keys before sorting and is
rendered from the `Kind` field. -/
def canonicalTokens (e : EntityID) : List (List Char) :=
  (sortStrings (keysOf e.Labels ++ ["kind"])).map (fun k =>
    k.data ++ '=' :: (if k = "kind" then e.Kind.data else (labelOf e k).data))

/-- `func (e EntityID) Canonical() string`. -/
def EntityID.Canonical (e : EntityID) : String :=
  ⟨joinSep IDSeparator (canonicalTokens e)⟩

/-- One iteration of the `ParseEntityID` loop: split the token on `=`,
drop it silently if there is no `=`, lift `kind=` to the kind field,
store any other key in the label map (later occurrences overwrite). -/
def parseStep (acc : EntityID) (token : List Char) : EntityID :=
  match splitOnChar '=' token with
  | k :: v :: _ =>
    if k = "kind".data then { acc with Kind := ⟨v⟩ }
    else { acc with Labels := insertA ⟨k⟩ ⟨v⟩ acc.Labels }
  | _ => acc

/-- `func ParseEntityID(str string) EntityID`. -/
def ParseEntityID (str : String) : EntityID :=
  if str = "" then ⟨"", []⟩
  else (splitOnChar IDSeparator str.data).foldl parseStep ⟨"", []⟩

/-- Two `EntityID`s denote the same identity when the kinds agree and the
label maps agree as maps (Go map equality ignores representation order). -/
def eIdEquiv (x y : EntityID) : Prop :=
  x.Kind = y.Kind ∧ ∀ k, lookupA k x.Labels = lookupA k y.Labels

/-- A string is clean when it contains neither the ID separator nor `=`.
The spec notes that no separator or `=` ever appears in a value the system
produces. -/
def cleanStr (s : String) : Prop := IDSeparator ∉ s.data ∧ '=' ∉ s.data

instance (s : String) : Decidable (cleanStr s) := by
  unfold cleanStr; infer_instance

/-! ### ID constructors (`NewServiceID`, `NewMonitorID`, `NewMetricID`) -/

/-- `func NewServiceID(instance string, name string) utils.EntityID`. -/
def NewServiceID (instName svcName : String) : EntityID :=
  ⟨"service", [("instance", instName), ("name", svcName)]⟩

/-- `func NewMonitorID(instance, service, monType, name string)`. -/
def NewMonitorID (instName svcName monType monName : String) : EntityID :=
  ⟨"monitor", [("instance", instName), ("service", svcName),
               ("type", monType), ("name", monName)]⟩

/-- `func NewMetricID(instance, service, metricType, name string)`. -/
def NewMetricID (instName svcName metricType metricName : String) : EntityID :=
  ⟨"metric", [("instance", instName), ("service", svcName),
              ("type", metricType), ("name", metricName)]⟩

/-- `func NewMonitorIDFromServiceID(serviceID, monType, name)`. -/
def NewMonitorIDFromServiceID (sid : EntityID) (monType monName : String) : EntityID :=
  NewMonitorID (labelOf sid "instance") (labelOf sid "name") monType monName

/-- `func NewMetricIDFromServiceID(serviceID, metricType, name)`. -/
def NewMetricIDFromServiceID (sid : EntityID) (metricType metricName : String) : EntityID :=
  NewMetricID (labelOf sid "instance") (labelOf sid "name") metricType metricName

/-! ### Canonical determinism -/

theorem lookupA_mem {α : Type} {k : String} {v : α} {l : List (String × α)}
    (h : lookupA k l = some v) : (k, v) ∈ l := by
  induction l with
  | nil => simp [lookupA] at h
  | cons p t ih =>
    obtain ⟨k1, v1⟩ := p
    by_cases h1 : k1 = k
    · subst h1
      simp [lookupA] at h
      simp [h]
    · simp [lookupA, h1] at h
      exact List.mem_cons_of_mem _ (ih h)

theorem keysOf_perm {α : Type} {l1 l2 : List (String × α)} (h : List.Perm l1 l2) :
    List.Perm (keysOf l1) (keysOf l2) := by
  unfold keysOf
  exact List.Perm.map (fun p => p.1) h

theorem lookupA_perm {α : Type} {l1 l2 : List (String × α)} (h : List.Perm l1 l2)
    (hnd : (keysOf l1).Nodup) (k : String) : lookupA k l1 = lookupA k l2 := by
  induction h with
  | nil => rfl
  | cons p h ih =>
    obtain ⟨k1, v1⟩ := p
    simp only [keysOf, List.map_cons, List.nodup_cons] at hnd
    by_cases h1 : k1 = k <;> simp [lookupA, h1, ih hnd.2]
  | swap p q l =>
    obtain ⟨k1, v1⟩ := p
    obtain ⟨k2, v2⟩ := q
    simp only [keysOf, List.map_cons, List.nodup_cons, List.mem_cons] at hnd
    have hne : k2 ≠ k1 := fun h => hnd.1 (Or.inl h)
    by_cases h1 : k1 = k
    · subst h1
      simp [lookupA, hne]
    · by_cases h2 : k2 = k <;> simp [lookupA, h1, h2]
  | trans h1 h2 ih1 ih2 =>
    have hnd2 := (keysOf_perm h1).nodup_iff.mp hnd
    rw [ih1 hnd]
    exact ih2 hnd2

/-- Canonical determinism: the canonical form depends only on the kind and on
the label map, not on the representation order of the labels. -/
theorem canonical_perm {e1 e2 : EntityID} (hk : e1.Kind = e2.Kind)
    (hl : List.Perm e1.Labels e2.Labels) (hnd : (keysOf e1.Labels).Nodup) :
    e1.Canonical = e2.Canonical := by
  unfold EntityID.Canonical canonicalTokens
  have hkeys : sortStrings (keysOf e1.Labels ++ ["kind"]) =
      sortStrings (keysOf e2.Labels ++ ["kind"]) :=
    sortStrings_perm_eq ((keysOf_perm hl).append_right ["kind"])
  rw [hkeys]
  refine congrArg String.mk (congrArg (joinSep IDSeparator) ?_)
  apply List.map_congr_left
  intro k _
  by_cases h : k = "kind"
  · simp [h, hk]
  · simp only [h, if_false, labelOf, lookupA_perm hl hnd k]

/-! ### Parsing inverts the canonical form on clean IDs -/

/-- All the conditions under which `ParseEntityID` recovers an `EntityID`
from its canonical form: label keys are unique, and the kind, the label keys
and the label values are free of the separator and of `=`; no label key is
the synthetic key `kind`. -/
def cleanID (e : EntityID) : Prop :=
  cleanStr e.Kind ∧ (keysOf e.Labels).Nodup ∧
    ∀ p ∈ e.Labels, cleanStr p.1 ∧ p.1 ≠ "kind" ∧ cleanStr p.2

instance (e : EntityID) : Decidable (cleanID e) := by
  unfold cleanID; infer_instance

/-- Semantic view of one `ParseEntityID` iteration on a well-formed token. -/
def parseSem (acc : EntityID) (kv : String × String) : EntityID :=
  if kv.1 = "kind" then { acc with Kind := kv.2 }
  else { acc with Labels := insertA kv.1 kv.2 acc.Labels }

theorem stringMk_data (s : String) : (⟨s.data⟩ : String) = s := by
  cases s
  rfl

theorem cleanStr_kind_lit : cleanStr "kind" := by decide

/-- `parseStep` on a token `k=v` with clean `k` and `v` acts like `parseSem`. -/
theorem parseStep_token (acc : EntityID) (k v : String)
    (hk : cleanStr k) (hv : cleanStr v) :
    parseStep acc (k.data ++ '=' :: v.data) = parseSem acc (k, v) := by
  unfold parseStep parseSem
  rw [splitOnChar_append_sep '=' k.data v.data hk.2, splitOnChar_clean '=' v.data hv.2]
  simp only []
  by_cases h : k = "kind"
  · subst h
    simp [stringMk_data]
  · have hne : k.data ≠ "kind".data := fun hd => h (by
      have := congrArg String.mk hd
      rwa [stringMk_data] at this)
    simp [h, hne, stringMk_data]

theorem foldl_parseStep_tokens (kvs : List (String × String)) (acc : EntityID)
    (hcl : ∀ p ∈ kvs, cleanStr p.1 ∧ cleanStr p.2) :
    (kvs.map (fun p => p.1.data ++ '=' :: p.2.data)).foldl parseStep acc =
      kvs.foldl parseSem acc := by
  induction kvs generalizing acc with
  | nil => rfl
  | cons p t ih =>
    obtain ⟨k, v⟩ := p
    have hp := hcl (k, v) (List.mem_cons_self _ _)
    simp only [List.map_cons, List.foldl_cons]
    rw [parseStep_token acc k v hp.1 hp.2, ih _ (fun q hq => hcl q (List.mem_cons_of_mem _ hq))]

theorem foldl_parseSem_kind_none (kvs : List (String × String)) (acc : EntityID)
    (hno : ∀ p ∈ kvs, p.1 ≠ "kind") : (kvs.foldl parseSem acc).Kind = acc.Kind := by
  induction kvs generalizing acc with
  | nil => rfl
  | cons p t ih =>
    have hp := hno p (List.mem_cons_self _ _)
    simp only [List.foldl_cons]
    rw [ih _ (fun q hq => hno q (List.mem_cons_of_mem _ hq))]
    simp [parseSem, hp]

theorem foldl_parseSem_kind (kvs : List (String × String)) (acc : EntityID) (K : String)
    (hall : ∀ p ∈ kvs, p.1 = "kind" → p.2 = K)
    (hex : ∃ p ∈ kvs, p.1 = "kind") : (kvs.foldl parseSem acc).Kind = K := by
  induction kvs generalizing acc with
  | nil => simp at hex
  | cons p t ih =>
    simp only [List.foldl_cons]
    by_cases hin : ∃ q ∈ t, q.1 = "kind"
    · exact ih _ (fun q hq => hall q (List.mem_cons_of_mem _ hq)) hin
    · have hno : ∀ q ∈ t, q.1 ≠ "kind" := by
        intro q hq hcon
        exact hin ⟨q, hq, hcon⟩
      rw [foldl_parseSem_kind_none t _ hno]
      obtain ⟨q, hq, hqk⟩ := hex
      rcases List.mem_cons.mp hq with h | h
      · subst h
        simp [parseSem, hqk, hall q hq hqk]
      · exact absurd hqk (hno q h)

theorem foldl_parseSem_labels (kvs : List (String × String)) (acc : EntityID) (k0 : String)
    (hnd : (keysOf kvs).Nodup) :
    lookupA k0 (kvs.foldl parseSem acc).Labels =
      if k0 = "kind" then lookupA k0 acc.Labels
      else (lookupA k0 kvs).or (lookupA k0 acc.Labels) := by
  induction kvs generalizing acc with
  | nil => by_cases h : k0 = "kind" <;> simp [h]
  | cons p t ih =>
    obtain ⟨k, v⟩ := p
    simp only [keysOf, List.map_cons, List.nodup_cons] at hnd
    simp only [List.foldl_cons]
    rw [ih _ hnd.2]
    by_cases h0 : k0 = "kind"
    · subst h0
      by_cases hk : k = "kind"
      · subst hk
        simp [parseSem]
      · simp [parseSem, hk, lookupA_insertA_ne _ _ _ _ (Ne.symm hk)]
    · by_cases hk : k = "kind"
      · subst hk
        simp [parseSem, lookupA, h0, Ne.symm h0]
      · by_cases hkk : k = k0
        · subst hkk
          simp [parseSem, hk, h0, lookupA, lookupA_insertA_self,
            (lookupA_eq_none_iff_not_mem k _).mpr (by
              intro hmem
              exact hnd.1 (by simpa [keysOf] using hmem))]
        · simp [parseSem, hk, h0, lookupA, hkk, lookupA_insertA_ne _ _ _ _ (Ne.symm hkk)]

theorem lookupA_map_keyfun {α : Type} (g : String → α) (ks : List String) (k0 : String) :
    lookupA k0 (ks.map (fun k => (k, g k))) = if k0 ∈ ks then some (g k0) else none := by
  induction ks with
  | nil => simp
  | cons k t ih =>
    by_cases h : k = k0
    · subst h
      simp [lookupA]
    · simp [lookupA, h, ih, Ne.symm h]

theorem joinSep_ne_nil_of (sep : Char) (parts : List (List Char))
    (hne : parts ≠ []) (hh : ∀ p ∈ parts, p ≠ []) : joinSep sep parts ≠ [] := by
  cases parts with
  | nil => exact absurd rfl hne
  | cons t ts =>
    cases ts with
    | nil => exact hh t (List.mem_cons_self t [])
    | cons t2 ts2 => simp [joinSep]

theorem mem_keysOf_iff {α : Type} (k : String) (l : List (String × α)) :
    k ∈ keysOf l ↔ ∃ v, (k, v) ∈ l := by
  induction l with
  | nil => simp
  | cons p t ih =>
    obtain ⟨k1, v1⟩ := p
    constructor
    · intro h
      rcases List.mem_cons.mp h with h | h
      · exact ⟨v1, by simp [h]⟩
      · obtain ⟨v, hv⟩ := ih.mp h
        exact ⟨v, List.mem_cons_of_mem _ hv⟩
    · rintro ⟨v, hv⟩
      rcases List.mem_cons.mp hv with h | h
      · simp [(Prod.mk.injEq _ _ _ _).mp h]
      · exact List.mem_cons_of_mem _ (ih.mpr ⟨v, h⟩)

/-- The sorted key list underlying `canonicalTokens`. -/
def canonKeys (e : EntityID) : List String :=
  sortStrings (keysOf e.Labels ++ ["kind"])

/-- The value rendered for a key by `canonicalTokens`. -/
def canonVal (e : EntityID) (k : String) : String :=
  if k = "kind" then e.Kind else labelOf e k

/-- The canonical form as key/value pairs in sorted key order. -/
def canonKVs (e : EntityID) : List (String × String) :=
  (canonKeys e).map (fun k => (k, canonVal e k))

theorem canonicalTokens_eq_kvs (e : EntityID) :
    canonicalTokens e = (canonKVs e).map (fun p => p.1.data ++ '=' :: p.2.data) := by
  unfold canonicalTokens canonKVs canonKeys canonVal
  rw [List.map_map]
  apply List.map_congr_left
  intro k _
  by_cases h : k = "kind" <;> simp [h]

theorem keysOf_canonKVs (e : EntityID) : keysOf (canonKVs e) = canonKeys e := by
  unfold canonKVs keysOf
  rw [List.map_map]
  exact List.map_id (canonKeys e)

/-- Parsing inverts the canonical form on clean entity IDs. -/
theorem parse_canonical_clean (e : EntityID) (hc : cleanID e) :
    eIdEquiv (ParseEntityID e.Canonical) e := by
  obtain ⟨hkind, hnd, hlab⟩ := hc
  have hkeyclean : ∀ k ∈ keysOf e.Labels, cleanStr k ∧ k ≠ "kind" := by
    intro k hk
    obtain ⟨v, hv⟩ := (mem_keysOf_iff k _).mp hk
    exact ⟨(hlab _ hv).1, (hlab _ hv).2.1⟩
  have hkindnotin : "kind" ∉ keysOf e.Labels := fun h => (hkeyclean _ h).2 rfl
  have hlabclean : ∀ k ∈ keysOf e.Labels, cleanStr (labelOf e k) := by
    intro k hk
    cases hsome : lookupA k e.Labels with
    | none => exact absurd hk ((lookupA_eq_none_iff_not_mem k _).mp hsome)
    | some v =>
      have hmem := lookupA_mem hsome
      simpa [labelOf, hsome] using (hlab _ hmem).2.2
  have hKperm : List.Perm (canonKeys e) (keysOf e.Labels ++ ["kind"]) := sortStrings_perm _
  have hKnd : (canonKeys e).Nodup := by
    refine hKperm.nodup_iff.mpr ?_
    simp [List.nodup_append, hnd, hkindnotin]
  have hkindK : "kind" ∈ canonKeys e := hKperm.mem_iff.mpr (by simp)
  have hmemkeys_of : ∀ k ∈ canonKeys e, k ≠ "kind" → k ∈ keysOf e.Labels := by
    intro k hk hne
    rcases List.mem_append.mp (hKperm.mem_iff.mp hk) with h | h
    · exact h
    · simp at h
      exact absurd h hne
  have hkvsclean : ∀ p ∈ canonKVs e, cleanStr p.1 ∧ cleanStr p.2 := by
    intro p hp
    obtain ⟨k, hk, rfl⟩ := List.mem_map.mp hp
    refine ⟨?_, ?_⟩
    · by_cases h : k = "kind"
      · subst h
        exact cleanStr_kind_lit
      · exact (hkeyclean k (hmemkeys_of k hk h)).1
    · by_cases h : k = "kind"
      · simpa [canonVal, h] using hkind
      · simpa [canonVal, h] using hlabclean k (hmemkeys_of k hk h)
  have htokne : canonicalTokens e ≠ [] := by
    rw [canonicalTokens_eq_kvs]
    simp only [ne_eq, List.map_eq_nil_iff]
    intro h
    rw [canonKVs, List.map_eq_nil_iff] at h
    exact (List.ne_nil_of_mem hkindK) h
  have htoknn : ∀ t ∈ canonicalTokens e, t ≠ [] := by
    rw [canonicalTokens_eq_kvs]
    intro t ht
    obtain ⟨p, _, rfl⟩ := List.mem_map.mp ht
    simp
  have htoksclean : ∀ t ∈ canonicalTokens e, IDSeparator ∉ t := by
    rw [canonicalTokens_eq_kvs]
    intro t ht
    obtain ⟨⟨k, v⟩, hp, rfl⟩ := List.mem_map.mp ht
    have hc1 := (hkvsclean _ hp).1.1
    have hc2 := (hkvsclean _ hp).2.1
    simp only [List.mem_append, List.mem_cons]
    rintro (h | h | h)
    · exact hc1 h
    · exact absurd h (by decide)
    · exact hc2 h
  have hdata : (EntityID.Canonical e).data = joinSep IDSeparator (canonicalTokens e) := rfl
  have hcanne : e.Canonical ≠ "" := by
    intro h
    have hd : (EntityID.Canonical e).data = [] := by rw [h]
    rw [hdata] at hd
    exact joinSep_ne_nil_of _ _ htokne htoknn hd
  have hsplit : splitOnChar IDSeparator (e.Canonical).data = canonicalTokens e := by
    rw [hdata]
    exact splitOnChar_joinSep _ _ htokne htoksclean
  have hparse : ParseEntityID e.Canonical = (canonKVs e).foldl parseSem ⟨"", []⟩ := by
    unfold ParseEntityID
    rw [if_neg hcanne, hsplit, canonicalTokens_eq_kvs]
    exact foldl_parseStep_tokens (canonKVs e) _ hkvsclean
  constructor
  · rw [hparse]
    apply foldl_parseSem_kind (canonKVs e) _ e.Kind
    · intro p hp hpk
      obtain ⟨k, _, rfl⟩ := List.mem_map.mp hp
      simp only at hpk
      simp [canonVal, hpk]
    · refine ⟨("kind", canonVal e "kind"), List.mem_map.mpr ⟨"kind", hkindK, rfl⟩, rfl⟩
  · intro k0
    rw [hparse, foldl_parseSem_labels (canonKVs e) _ k0 ((keysOf_canonKVs e).symm ▸ hKnd)]
    by_cases h0 : k0 = "kind"
    · subst h0
      simp only [if_pos rfl]
      exact ((lookupA_eq_none_iff_not_mem _ _).mpr hkindnotin).symm
    · simp only [h0, if_false]
      rw [canonKVs, lookupA_map_keyfun (canonVal e) (canonKeys e) k0]
      by_cases hmem : k0 ∈ canonKeys e
      · have hmemk : k0 ∈ keysOf e.Labels := hmemkeys_of k0 hmem h0
        cases hsome : lookupA k0 e.Labels with
        | none => exact absurd hmemk ((lookupA_eq_none_iff_not_mem k0 _).mp hsome)
        | some v => simp [hmem, canonVal, h0, labelOf, hsome]
      · have hnk : k0 ∉ keysOf e.Labels := fun hmm =>
          hmem (hKperm.mem_iff.mpr (List.mem_append.mpr (Or.inl hmm)))
        simp [hmem, ((lookupA_eq_none_iff_not_mem _ _).mpr hnk).symm]

/-! ### Claim C2 -/

/-- C2 (amended).  Canonical identity is deterministic: any two EntityIDs
with equal kind and equal label mapping (whatever the insertion order of the
labels) have the same canonical string, obtained by sorting all label keys
plus the synthetic key `kind` ascending and joining `key=value` pairs with
`|`.  Parsing is the inverse of `Canonical` for every EntityID whose kind,
label keys and label values contain no separator `|` and no `=` and whose
label keys avoid the synthetic key `kind` (tokens without `=` are dropped
silently and the `kind=` pair is lifted to the kind field, so a key that
contains a separator or `=`, or shadows `kind`, is not recovered). -/
theorem C2_canonical_deterministic_parse_inverse :
    (∀ e1 e2 : EntityID, e1.Kind = e2.Kind → List.Perm e1.Labels e2.Labels →
      (keysOf e1.Labels).Nodup → e1.Canonical = e2.Canonical) ∧
    (∀ e : EntityID, cleanID e → eIdEquiv (ParseEntityID e.Canonical) e) :=
  ⟨fun _ _ hk hl hnd => canonical_perm hk hl hnd,
   fun e hc => parse_canonical_clean e hc⟩

/-- C2 (counterexample to the claim as stated).  The claim restricts only
the label *values*; an EntityID whose label *key* contains the separator,
with a clean value, is not recovered by parsing: the key `a|b` is split at
the separator and the token `a` (without `=`) is dropped. -/
theorem C2_claim_counterexample :
    ¬ eIdEquiv (ParseEntityID (EntityID.mk "monitor" [("a|b", "c")]).Canonical)
        (EntityID.mk "monitor" [("a|b", "c")]) := fun h => by
  have h2 := h.2 "a|b"
  revert h2
  decide

/-- Witness for C2: the amended theorem applied at concrete inputs. -/
theorem C2_canonical_deterministic_parse_inverse_witness :
    (EntityID.mk "monitor" [("name", "w"), ("instance", "p")]).Canonical =
      (EntityID.mk "monitor" [("instance", "p"), ("name", "w")]).Canonical ∧
    eIdEquiv (ParseEntityID (NewMonitorID "p" "a" "tcp" "w").Canonical)
      (NewMonitorID "p" "a" "tcp" "w") :=
  ⟨C2_canonical_deterministic_parse_inverse.1 _ _ rfl (by decide) (by decide),
   C2_canonical_deterministic_parse_inverse.2 (NewMonitorID "p" "a" "tcp" "w") (by decide)⟩

/-! ### Probe configuration documents

A probe document models the parsed JSON object of one probe entry.  Absent
JSON fields decode to Go zero values, so every field carries a default.
`json.Unmarshal` into `MonitorConfig` / `HTTPConfig` / `TCPConfig` reads the
respective fields of the same raw object and cannot fail on a well-typed
document, which is what this model ranges over. -/

structure ProbeDoc where
  ptype : String := ""
  pname : String := ""
  interval : Int := 0
  url : String := ""
  method : String := ""
  timeout : Int := 0
  expectedStatus : Int := 0
  hostname : String := ""
  port : String := ""
deriving DecidableEq, Repr

/-- `type HTTPConfig struct { URL; Method; Timeout; ExpectedStatus }`. -/
structure HTTPConfig where
  URL : String := ""
  Method : String := ""
  Timeout : Int := 0
  ExpectedStatus : Int := 0
deriving DecidableEq, Repr

/-- `type TCPConfig struct { Hostname; Port; Timeout }`. -/
structure TCPConfig where
  Hostname : String := ""
  Port : String := ""
  Timeout : Int := 0
deriving DecidableEq, Repr

/-- `json.Unmarshal(rawCfg, &cfg)` with `cfg : HTTPConfig`. -/
def ProbeDoc.asHTTP (d : ProbeDoc) : HTTPConfig :=
  ⟨d.url, d.method, d.timeout, d.expectedStatus⟩

/-- `json.Unmarshal(rawCfg, &cfg)` with `cfg : TCPConfig`. -/
def ProbeDoc.asTCP (d : ProbeDoc) : TCPConfig :=
  ⟨d.hostname, d.port, d.timeout⟩

/-- `utils.CheckName` failure text (`EmptyNameError`). -/
def emptyNameMsg : String := "'name' is required"

/-- `func (c *MonitorConfig) Valid(ctx)` — name, type and interval checks,
problems inserted in source order. -/
def monitorConfigProblems (d : ProbeDoc) : List (String × String) :=
  let p1 := if d.pname = "" then insertA "name" emptyNameMsg [] else []
  let p2 := if d.ptype = "" then insertA "type" "'type' is required" p1 else p1
  if d.interval = 0 then insertA "interval" "interval should be more than zero" p2 else p2

/-- `func (c *MetricConfig) Valid(ctx)` — body identical to
`MonitorConfig.Valid` in the source. -/
def metricConfigProblems (d : ProbeDoc) : List (String × String) :=
  let p1 := if d.pname = "" then insertA "name" emptyNameMsg [] else []
  let p2 := if d.ptype = "" then insertA "type" "'type' is required" p1 else p1
  if d.interval = 0 then insertA "interval" "interval should be more than zero" p2 else p2

/-! ### HTTP config validation and status check -/

def listHasPre : List Char → List Char → Bool
  | [], _ => true
  | _ :: _, [] => false
  | p :: ps, c :: cs => p = c && listHasPre ps cs

/-- `strings.HasPrefix(s, p)`. -/
def goHasPre (p s : String) : Bool := listHasPre p.data s.data

/-- The fixed method set of `HTTPConfig.Valid`. -/
def validMethods : List String :=
  ["GET", "POST", "PUT", "DELETE", "PATCH", "HEAD", "OPTIONS"]

/-- `strings.ToUpper` (the method strings involved are ASCII, where Go's
Unicode upper-casing and per-character `Char.toUpper` agree). -/
def goToUpper (s : String) : String := ⟨s.data.map Char.toUpper⟩

/-- The problems map computed by `func (c *HTTPConfig) Valid(ctx)`. -/
def httpProblems (c : HTTPConfig) : List (String × String) :=
  let p1 := if c.URL = "" then insertA "url" "url is required" []
    else if !goHasPre "http://" c.URL && !goHasPre "https://" c.URL then
      insertA "url" "url must start with http:// or https://" []
    else []
  let p2 := if c.Method = "" then p1
    else if validMethods.contains (goToUpper c.Method) then p1
    else insertA "method" ("invalid HTTP method: " ++ c.Method) p1
  let p3 := if c.Timeout < 0 then insertA "timeout" "cannot be less than zero" p2 else p2
  if c.ExpectedStatus ≠ 0 ∧ (c.ExpectedStatus < 100 ∨ c.ExpectedStatus > 599) then
    insertA "expectedStatus" "must be a valid HTTP status code (100-599)" p3
  else p3

/-- The in-place normalisation `HTTPConfig.Valid` performs on `c.Method`:
empty defaults to `GET`, an accepted method is upper-cased, a rejected
method is left untouched. -/
def httpNormMethod (c : HTTPConfig) : String :=
  if c.Method = "" then "GET"
  else if validMethods.contains (goToUpper c.Method) then goToUpper c.Method
  else c.Method

/-- The status validation at the tail of `HTTPClientImpl.Do`: a nonzero
expected status requires an exact match, zero accepts any 2xx; the error
names the expected and actual statuses.  Returns `none` when the check
succeeds. -/
def httpCheckStatus (expectedStatus status : Int) : Option String :=
  if expectedStatus ≠ 0 then
    if status ≠ expectedStatus then
      some ("expected status " ++ toString expectedStatus ++ ", got " ++ toString status)
    else none
  else
    if status < 200 ∨ status > 299 then
      some ("expected status in 200-299 range, got " ++ toString status)
    else none

/-! ### TCP config validation -/

def isAlphaCh (c : Char) : Bool :=
  ('a' ≤ c && c ≤ 'z') || ('A' ≤ c && c ≤ 'Z')

def isDigitCh (c : Char) : Bool := '0' ≤ c && c ≤ '9'

def isAlnumCh (c : Char) : Bool := isAlphaCh c || isDigitCh c

def isLabelCh (c : Char) : Bool := isAlnumCh c || c = '-'

/-- One DNS label of `HostnameRegex`:
`[a-zA-Z]` or `[a-zA-Z][a-zA-Z0-9-]*[a-zA-Z0-9]`. -/
def dnsLabelOk : List Char → Bool
  | [] => false
  | [c] => isAlphaCh c
  | c :: rest =>
    isAlphaCh c && rest.dropLast.all isLabelCh &&
      (match rest.getLast? with
       | some x => isAlnumCh x
       | none => false)

/-- `HostnameRegex.MatchString`: dot-separated DNS labels. -/
def hostnameRegexMatch (s : String) : Bool :=
  (splitOnChar '.' s.data).all dnsLabelOk

def natOfDigits (l : List Char) : Nat :=
  l.foldl (fun acc c => acc * 10 + (c.toNat - 48)) 0

/-- One octet of `IPRegex`:
`[0-9]|[1-9][0-9]|1[0-9][0-9]|2[0-4][0-9]|25[0-5]`, i.e. 1-3 digits, no
leading zero unless the single digit 0, value at most 255. -/
def ipOctetOk (l : List Char) : Bool :=
  l.all isDigitCh && decide (1 ≤ l.length) && decide (l.length ≤ 3) &&
    (decide (l.length = 1) || !(l.headI = '0')) && decide (natOfDigits l ≤ 255)

/-- `IPRegex.MatchString`: four dot-separated octets. -/
def ipRegexMatch (s : String) : Bool :=
  let parts := splitOnChar '.' s.data
  decide (parts.length = 4) && parts.all ipOctetOk

/-- `strconv.Atoi`: optional sign and decimal digits.  The int64 range
error of Go is not modelled (the integers in scope are tiny). -/
def goAtoi (s : String) : Option Int :=
  match s.data with
  | [] => none
  | '+' :: ds => if ds ≠ [] ∧ ds.all isDigitCh then some (natOfDigits ds : Int) else none
  | '-' :: ds => if ds ≠ [] ∧ ds.all isDigitCh then some (-(natOfDigits ds : Int)) else none
  | ds => if ds.all isDigitCh then some (natOfDigits ds : Int) else none

/-- The problems map computed by `func (c *TCPConfig) Valid(ctx)`.  The
`strconv` error text appended to the port message is abstracted away. -/
def tcpProblems (c : TCPConfig) : List (String × String) :=
  let p1 := if !hostnameRegexMatch c.Hostname && !ipRegexMatch c.Hostname then
    insertA "hostname" "invalid hostname or ip address" [] else []
  let numPort := (goAtoi c.Port).getD 0
  let p2 := if (goAtoi c.Port).isNone then
    insertA "port" "port should be a valid number" p1 else p1
  let p3 := if numPort < 0 then insertA "port" "cannot be less than zero" p2 else p2
  let p4 := if numPort > 65535 then insertA "port" "cannot be greater than 65,535" p3 else p3
  if c.Timeout < 0 then insertA "timeout" "cannot be less than zero" p4 else p4

/-! ### Validation errors (`internal/shared/validation`) -/

/-- `strings.Join(path, ".")` as used by the error constructors. -/
def pathJoin : List String → String
  | [] => ""
  | [p] => p
  | p :: q :: r => p ++ "." ++ pathJoin (q :: r)

/-- The three error shapes of the validation package.  `noName` carries the
positional index, `-1` when unset (`NewNoNameError`). -/
inductive CfgError where
  | validation (path : String) (problems : List (String × String))
  | noName (path : String) (index : Int)
  | duplicate (path : String)
deriving DecidableEq, Repr

/-- `NoNameError.Error()` path rendering: `path[index]` when an index is
set, bare path otherwise. -/
def noNameErrorPath (path : String) (index : Int) : String :=
  if index ≥ 0 then path ++ "[" ++ toString index ++ "]" else path

/-! ### Monitor and metric builders -/

/-- `serviceID.Labels["name"]`. -/
def svcNameOf (sid : EntityID) : String := labelOf sid "name"

/-- `BuildMonitor` (application layer, `monitor_factory.go` lines 15-49):
header validation, ID derivation, type dispatch to the TCP/HTTP monitor and
its `Configure` validation.  Returns the monitor ID on success. -/
def BuildMonitor (sid : EntityID) (d : ProbeDoc) : Except CfgError EntityID :=
  let problems := monitorConfigProblems d
  if problems ≠ [] then
    .error (.validation (pathJoin [svcNameOf sid, d.pname]) problems)
  else
    let id := NewMonitorIDFromServiceID sid d.ptype d.pname
    match d.ptype with
    | "tcp" =>
      let ps := tcpProblems d.asTCP
      if ps ≠ [] then .error (.validation (pathJoin [labelOf id "name"]) ps)
      else .ok id
    | "http" =>
      let ps := httpProblems d.asHTTP
      if ps ≠ [] then .error (.validation (pathJoin [labelOf id "name"]) ps)
      else .ok id
    | _ => .error (.validation (pathJoin [svcNameOf sid, d.pname])
        [("type", "unknown monitor type: " ++ d.ptype)])

/-- `BuildMetric` (`metrics` domain): header validation, ID derivation,
type dispatch; `CPUMetrics.Configure` never fails on a well-typed
document. -/
def BuildMetric (sid : EntityID) (d : ProbeDoc) : Except CfgError EntityID :=
  let problems := metricConfigProblems d
  if problems ≠ [] then
    .error (.validation (pathJoin [svcNameOf sid, d.pname]) problems)
  else
    let id := NewMetricIDFromServiceID sid d.ptype d.pname
    match d.ptype with
    | "cpu" => .ok id
    | _ => .error (.validation (pathJoin [svcNameOf sid, d.pname])
        [("type", "unknown metrics type: " ++ d.ptype)])

/-! ### Claim C9 -/

theorem lookupA_method_httpProblems (c : HTTPConfig) :
    lookupA "method" (httpProblems c) =
      if c.Method = "" then none
      else if validMethods.contains (goToUpper c.Method) then none
      else some ("invalid HTTP method: " ++ c.Method) := by
  unfold httpProblems
  split_ifs <;> simp_all [lookupA_insertA_ne, lookupA_insertA_self]

theorem lookupA_expectedStatus_httpProblems (c : HTTPConfig) :
    lookupA "expectedStatus" (httpProblems c) =
      if c.ExpectedStatus ≠ 0 ∧ (c.ExpectedStatus < 100 ∨ c.ExpectedStatus > 599) then
        some "must be a valid HTTP status code (100-599)"
      else none := by
  unfold httpProblems
  split_ifs <;> simp_all [lookupA_insertA_ne, lookupA_insertA_self]

/-- C9.  `HTTPConfig.Valid` accepts the method exactly when it is empty or
case-insensitively one of GET, POST, PUT, DELETE, PATCH, HEAD, OPTIONS,
normalising it in place to upper case with empty defaulting to GET; it
accepts `expectedStatus` exactly when it is 0 or lies in [100,599]; and at
run time `HTTPClientImpl.Do` treats expected status 0 as "any 2xx" while a
nonzero expected status requires an exact match, the mismatch error naming
the expected and actual statuses. -/
theorem C9_http_config_handling :
    (∀ c : HTTPConfig,
      (lookupA "method" (httpProblems c) = none ↔
        (c.Method = "" ∨ validMethods.contains (goToUpper c.Method) = true)) ∧
      (c.Method = "" → httpNormMethod c = "GET") ∧
      (c.Method ≠ "" → validMethods.contains (goToUpper c.Method) = true →
        httpNormMethod c = goToUpper c.Method) ∧
      (lookupA "expectedStatus" (httpProblems c) = none ↔
        (c.ExpectedStatus = 0 ∨ (100 ≤ c.ExpectedStatus ∧ c.ExpectedStatus ≤ 599)))) ∧
    (∀ st : Int, httpCheckStatus 0 st = none ↔ (200 ≤ st ∧ st ≤ 299)) ∧
    (∀ es st : Int, es ≠ 0 →
      (httpCheckStatus es st = none ↔ st = es) ∧
      (st ≠ es → httpCheckStatus es st =
        some ("expected status " ++ toString es ++ ", got " ++ toString st))) := by
  refine ⟨fun c => ⟨?_, ?_, ?_, ?_⟩, fun st => ?_, fun es st hes => ⟨?_, ?_⟩⟩
  · rw [lookupA_method_httpProblems]
    split_ifs with h1 h2 <;> simp_all
  · intro h
    simp [httpNormMethod, h]
  · intro h1 h2
    have h3 : goToUpper c.Method ∈ validMethods := by simpa using h2
    simp [httpNormMethod, h1, h3]
  · rw [lookupA_expectedStatus_httpProblems]
    split_ifs with h1
    · simp only [reduceCtorEq, false_iff]
      push_neg
      obtain ⟨ha, hb⟩ := h1
      exact ⟨ha, fun h100 => by omega⟩
    · simp only [true_iff]
      push_neg at h1
      by_cases h0 : c.ExpectedStatus = 0
      · exact Or.inl h0
      · right
        have := h1 h0
        omega
  · unfold httpCheckStatus
    split_ifs with h1 h2 <;> simp_all <;> omega
  · unfold httpCheckStatus
    split_ifs <;> simp_all
  · intro hne
    unfold httpCheckStatus
    split_ifs <;> simp_all

/-- Witness for C9 at concrete inputs. -/
theorem C9_http_config_handling_witness :
    httpNormMethod ⟨"http://x", "get", 100, 200⟩ = goToUpper "get" ∧
    (httpCheckStatus 500 500 = none ↔ (500 : Int) = 500) ∧
    httpCheckStatus 200 500 =
      some ("expected status " ++ toString (200 : Int) ++ ", got " ++ toString (500 : Int)) :=
  ⟨(C9_http_config_handling.1 ⟨"http://x", "get", 100, 200⟩).2.2.1 (by decide) (by decide),
   (C9_http_config_handling.2.2 500 500 (by decide)).1,
   (C9_http_config_handling.2.2 200 500 (by decide)).2 (by decide)⟩

/-! ### Tick-task bodies (`runMonitor` / `runMetric`)

One iteration of the tick loop is modelled as a function of the event the
`select` observed: a timer tick together with the result of `Run`, or the
context's done signal.  A Go panic escaping `Run` is a control-flow effect,
not an error value; since neither `runMonitor` nor `runMetric` contains a
deferred `recover`, a panicking `Run` propagates out of the goroutine,
which crashes the whole process. -/

/-- The outcome of one `Run` invocation as observed by the tick loop. -/
inductive RunRes where
  | ok
  | fail (msg : String)
  | canceled
  | panics
deriving DecidableEq, Repr

/-- `errors.Is(err, context.Canceled)`. -/
def runResIsCanceled : RunRes → Bool
  | .canceled => true
  | _ => false

/-- A heartbeat value (`domain.NewHeartbeat`); the timestamp is irrelevant
to the claims and omitted.  `Error = none` renders `successful = true`. -/
structure Heartbeat where
  MonitorID : String
  ErrMsg : Option String
deriving DecidableEq, Repr

/-- What the tick loop observed in its `select`. -/
inductive TickEvent where
  | timer (r : RunRes)
  | ctxDone
deriving DecidableEq, Repr

/-- Result of one iteration of a tick loop: the heartbeat written (if any)
and whether the loop keeps running, or a crash of the task. -/
inductive TickOut where
  | eff (wrote : Option Heartbeat) (continues : Bool)
  | crashed
deriving DecidableEq, Repr

/-- One iteration of `Service.runMonitor`'s loop (monitor scheduler):
a cancellation error skips the outcome and continues; any other result is
recorded as a heartbeat carrying the error text; the done signal exits the
loop.  There is no `recover`, so a panicking `Run` crashes the task. -/
def monitorTickStep (canon : String) : TickEvent → TickOut
  | .timer .panics => .crashed
  | .timer .canceled => .eff none true
  | .timer .ok => .eff (some ⟨canon, none⟩) true
  | .timer (.fail m) => .eff (some ⟨canon, some m⟩) true
  | .ctxDone => .eff none false

/-- One iteration of `Service.runMetric`'s loop (metric scheduler): the
tick task itself never writes an outcome — a cancellation error is logged
and skipped, other results are ignored (samples are emitted inside `Run`
via the sink); the done signal exits the loop.  No `recover` either. -/
def metricTickStep : TickEvent → TickOut
  | .timer .panics => .crashed
  | .timer _ => .eff none true
  | .ctxDone => .eff none false

/-- `time.NewTicker(interval)` fires first at one full interval after
start; the k-th tick fires at `(k+1) * interval`. -/
def tickerFireTime (interval : Int) (k : Nat) : Int :=
  interval * (k + 1)

/-! ### Claim C5 -/

/-- C5.  When a probe's `Run` returns the context's cancellation error the
tick task emits no outcome for that tick — the monitor scheduler writes no
heartbeat and the metric tick records nothing — and the loop continues; it
exits only upon observing the context's done signal. -/
theorem C5_silent_on_cancel (canon : String) :
    monitorTickStep canon (.timer .canceled) = .eff none true ∧
    metricTickStep (.timer .canceled) = .eff none true ∧
    monitorTickStep canon .ctxDone = .eff none false ∧
    metricTickStep .ctxDone = .eff none false :=
  ⟨rfl, rfl, rfl, rfl⟩

/-! ### Claim C8 -/

/-- C8 (code evaluated at the failing input).  Neither tick loop contains a
`recover`: a panic escaping `Run` crashes the tick task — and with it, by
Go's semantics for panics in goroutines, the whole process — rather than
being contained at the task boundary as the specification requires. -/
theorem C8_panic_not_recovered (canon : String) :
    monitorTickStep canon (.timer .panics) = .crashed ∧
    metricTickStep (.timer .panics) = .crashed :=
  ⟨rfl, rfl⟩

/-! ### Scheduler state (`Service` in `monitoring/application` and
`metrics/application`)

Both schedulers share one structure: a map from canonical ID to probe
instance and a map from service canonical ID to the probe-ID list of that
service.  The two Go types are the same shape with different builders, so
the scheduler functions are parameterised by the builder.  The entity
repository is modelled as the list of registered canonical IDs (reads and
writes never fail; a failing SQL backend is out of scope).  The context and
cancel handle of an instance are represented by the `running` flag plus the
task set of the `World` below. -/

/-- `MonitorInstance` / `MetricInstance`: identity, parsed header+raw
config (merged into the one `ProbeDoc`), running flag. -/
structure Inst where
  id : EntityID
  canon : String
  doc : ProbeDoc
  running : Bool
deriving DecidableEq, Repr

structure SchedState where
  probes : List (String × Inst)
  services : List (String × List String)
deriving DecidableEq, Repr

def emptySched : SchedState := ⟨[], []⟩

/-- Observable events, in program order: entity-row insertion, tick-task
start, and a written outcome (heartbeat or sample). -/
inductive Event where
  | insertEntity (c : String)
  | start (c : String)
  | outcome (c : String)
deriving DecidableEq, Repr

/-- `Service.buildAll`: build every raw entry in order, annotate a NoName
error with the positional index, fail on a duplicate canonical ID naming
the second entry's index, otherwise accumulate `NewMonitorInstance`
(running is false until `startInstanceUnsynced`). -/
def buildAllG (build : EntityID → ProbeDoc → Except CfgError EntityID)
    (sid : EntityID) : List ProbeDoc → Nat → List (String × Inst) →
    Except CfgError (List (String × Inst))
  | [], _, acc => .ok acc
  | d :: ds, i, acc =>
    match build sid d with
    | .error (.noName p _) => .error (.noName p (Int.ofNat i))
    | .error e => .error e
    | .ok id =>
      if (lookupA id.Canonical acc).isSome then
        .error (.duplicate (pathJoin [svcNameOf sid, toString i]))
      else
        buildAllG build sid ds (i + 1) (acc ++ [(id.Canonical, ⟨id, id.Canonical, d, false⟩)])

/-- One step of the entity-registration loop of `LoadService`: `GetID`
on the canonical ID, then `InsertEntity` when absent. -/
def regGo (acc : List String × List Event) (c : String) : List String × List Event :=
  if c ∈ acc.1 then acc else (acc.1 ++ [c], acc.2 ++ [.insertEntity c])

/-- The entity-registration loop of `LoadService`. -/
def registerAll (canons : List String) (ents : List String) : List String × List Event :=
  canons.foldl regGo (ents, [])

/-- `Service.stopInstanceUnsynced`: an unchecked map read — a missing
entry is a nil pointer and dereferencing its `running` field panics, which
the `none` result records. -/
def stopInstanceUnsynced (c : String) (probes : List (String × Inst)) :
    Option (List (String × Inst)) :=
  match lookupA c probes with
  | none => none
  | some inst =>
    if inst.running then some (insertA c { inst with running := false } probes)
    else some probes

/-- The removal loop of `LoadService`: every ID of the old service entry
that is not in the desired map is stopped and deleted. -/
def removeGone (newProbes : List (String × Inst)) :
    List String → List (String × Inst) → Option (List (String × Inst))
  | [], probes => some probes
  | c :: rest, probes =>
    if (lookupA c newProbes).isSome then removeGone newProbes rest probes
    else
      match stopInstanceUnsynced c probes with
      | none => none
      | some p1 => removeGone newProbes rest (eraseA c p1)

/-- The add/update loop of `LoadService`: a running instance under the same
ID is stopped first, then the new instance is installed with a fresh child
context and started (`startInstanceUnsynced` sets `running` and spawns the
tick task). -/
def addAll : List (String × Inst) → List (String × Inst) →
    List (String × Inst) × List String × List Event
  | [], probes => (probes, [], [])
  | (c, inst) :: rest, probes =>
    let p1 := match lookupA c probes with
      | some old => if old.running then insertA c { old with running := false } probes else probes
      | none => probes
    let p2 := insertA c { inst with running := true } p1
    let r := addAll rest p2
    (r.1, c :: r.2.1, .start c :: r.2.2)

/-- Result of `LoadService`: the new scheduler state, entity set, started
task IDs and emitted events; a build error (state untouched); or a panic
from the unchecked lookup in the removal loop. -/
inductive LoadRes where
  | ok (st : SchedState) (ents : List String) (started : List String) (evs : List Event)
  | fail (e : CfgError)
  | crash
deriving DecidableEq, Repr

/-- `Service.LoadService` (`monitor_factory.go` lines 109-176 and the
metric twin): build all entries, register entities, remove stale probes,
install and start desired probes, replace the service entry. -/
def LoadService (build : EntityID → ProbeDoc → Except CfgError EntityID)
    (sid : EntityID) (docs : List ProbeDoc) (st : SchedState) (ents : List String) :
    LoadRes :=
  match buildAllG build sid docs 0 [] with
  | .error e => .fail e
  | .ok newProbes =>
    let reg := registerAll (keysOf newProbes) ents
    let oldIDs := (lookupA sid.Canonical st.services).getD []
    match removeGone newProbes oldIDs st.probes with
    | none => .crash
    | some probes1 =>
      let add := addAll newProbes probes1
      .ok ⟨add.1, insertA sid.Canonical (keysOf newProbes) st.services⟩
        reg.1 add.2.1 (reg.2 ++ add.2.2)

/-! ### Reachable scheduler worlds -/

/-- A scheduler together with its environment: the entity rows, the set of
live tick tasks (goroutines that have not yet observed cancellation), and
the global event trace in wall-clock order. -/
structure World where
  st : SchedState
  ents : List String
  tasks : List String
  trace : List Event
deriving DecidableEq, Repr

def w0 : World := ⟨emptySched, [], [], []⟩

/-- Events one tick appends: nothing when `Run` returned the cancellation
error, one outcome otherwise. -/
def tickEvents (c : String) (r : RunRes) : List Event :=
  if runResIsCanceled r then [] else [.outcome c]

/-- Worlds reachable from the empty scheduler through `LoadService` calls
satisfying the call filter `P`, ticks of live tasks, and task exits
(`Stop` cancels contexts and waits; it never mutates the maps, so it is
represented by task exits alone). -/
inductive ReachP (build : EntityID → ProbeDoc → Except CfgError EntityID)
    (P : EntityID → List ProbeDoc → Prop) : World → Prop where
  | init : ReachP build P w0
  | load (w : World) (sid : EntityID) (docs : List ProbeDoc)
      (st2 : SchedState) (ents2 started : List String) (evs : List Event) :
      ReachP build P w → P sid docs →
      LoadService build sid docs w.st w.ents = .ok st2 ents2 started evs →
      ReachP build P ⟨st2, ents2, w.tasks ++ started, w.trace ++ evs⟩
  | tick (w : World) (c : String) (r : RunRes) : ReachP build P w → c ∈ w.tasks →
      ReachP build P ⟨w.st, w.ents, w.tasks, w.trace ++ tickEvents c r⟩
  | taskExit (w : World) (c : String) : ReachP build P w →
      ReachP build P ⟨w.st, w.ents, w.tasks.erase c, w.trace⟩

/-! ### Characterisation lemmas for the LoadService folds -/

theorem lookupA_eraseA {α : Type} (c d : String) (l : List (String × α)) :
    lookupA d (eraseA c l) = if d = c then none else lookupA d l := by
  induction l with
  | nil => by_cases h : d = c <;> simp [eraseA, h]
  | cons p t ih =>
    obtain ⟨k1, v1⟩ := p
    by_cases h : d = c
    · subst h
      by_cases h1 : k1 = d <;> simp_all [eraseA, lookupA]
    · by_cases h1 : k1 = d <;> by_cases h2 : k1 = c <;>
        simp_all [eraseA, lookupA]

theorem insertA_append_of_absent {α : Type} (c : String) (v : α) (l : List (String × α))
    (h : lookupA c l = none) : insertA c v l = l ++ [(c, v)] := by
  induction l with
  | nil => simp [insertA]
  | cons p t ih =>
    obtain ⟨k1, v1⟩ := p
    by_cases h1 : k1 = c
    · simp [lookupA, h1] at h
    · simp [lookupA, h1] at h
      simp [insertA, h1, ih h]

theorem regGo_foldl_spec (canons : List String) :
    ∀ start : List String × List Event,
      (∀ c ∈ start.1, c ∈ (canons.foldl regGo start).1) ∧
      (∀ c ∈ canons, c ∈ (canons.foldl regGo start).1) ∧
      (∀ c ∈ (canons.foldl regGo start).1, c ∈ start.1 ∨ c ∈ canons) ∧
      (∀ ev ∈ start.2, ev ∈ (canons.foldl regGo start).2) ∧
      (∀ c ∈ (canons.foldl regGo start).1,
        c ∈ start.1 ∨ Event.insertEntity c ∈ (canons.foldl regGo start).2) ∧
      (∀ ev ∈ (canons.foldl regGo start).2, ev ∈ start.2 ∨ ∃ c, ev = Event.insertEntity c) := by
  induction canons with
  | nil =>
    intro start
    refine ⟨fun c hc => hc, by simp, fun c hc => Or.inl hc, fun ev hev => hev,
      fun c hc => Or.inl hc, fun ev hev => Or.inl hev⟩
  | cons c0 rest ih =>
    intro start
    simp only [List.foldl_cons]
    by_cases hm : c0 ∈ start.1
    · have hgo : regGo start c0 = start := by simp [regGo, hm]
      rw [hgo]
      obtain ⟨i1, i2, i3, i4, i5, i6⟩ := ih start
      refine ⟨i1, ?_, ?_, i4, i5, fun ev hev => (i6 ev hev).imp id id⟩
      · intro c hc
        rcases List.mem_cons.mp hc with h | h
        · exact i1 c (h ▸ hm)
        · exact i2 c h
      · intro c hc
        rcases i3 c hc with h | h
        · exact Or.inl h
        · exact Or.inr (List.mem_cons_of_mem _ h)
    · have hgo : regGo start c0 = (start.1 ++ [c0], start.2 ++ [.insertEntity c0]) := by
        simp [regGo, hm]
      rw [hgo]
      obtain ⟨i1, i2, i3, i4, i5, i6⟩ := ih (start.1 ++ [c0], start.2 ++ [.insertEntity c0])
      refine ⟨?_, ?_, ?_, ?_, ?_, ?_⟩
      · intro c hc
        exact i1 c (by simp [hc])
      · intro c hc
        rcases List.mem_cons.mp hc with h | h
        · exact i1 c (by simp [h])
        · exact i2 c h
      · intro c hc
        rcases i3 c hc with h | h
        · rcases List.mem_append.mp h with h | h
          · exact Or.inl h
          · simp only [List.mem_singleton] at h
            exact Or.inr (List.mem_cons.mpr (Or.inl h))
        · exact Or.inr (List.mem_cons_of_mem _ h)
      · intro ev hev
        exact i4 ev (by simp [hev])
      · intro c hc
        rcases i5 c hc with h | h
        · rcases List.mem_append.mp h with h | h
          · exact Or.inl h
          · simp only [List.mem_singleton] at h
            subst h
            exact Or.inr (i4 _ (by simp))
        · exact Or.inr h
      · intro ev hev
        rcases i6 ev hev with h | h
        · rcases List.mem_append.mp h with h | h
          · exact Or.inl h
          · simp only [List.mem_singleton] at h
            exact Or.inr ⟨c0, h⟩
        · exact Or.inr h

theorem regGo_foldl_noop (canons : List String) :
    ∀ start : List String × List Event,
      (∀ c ∈ canons, c ∈ start.1) → canons.foldl regGo start = start := by
  induction canons with
  | nil => intro start _; rfl
  | cons c0 rest ih =>
    intro start hstart
    simp only [List.foldl_cons]
    have hgo : regGo start c0 = start := by
      simp [regGo, hstart c0 (List.mem_cons_self _ _)]
    rw [hgo]
    exact ih start (fun c hc => hstart c (List.mem_cons_of_mem _ hc))

/-- When every desired canonical ID is already registered, the entity loop
leaves the repository untouched and emits nothing. -/
theorem registerAll_noop (canons ents : List String) (h : ∀ c ∈ canons, c ∈ ents) :
    registerAll canons ents = (ents, []) := by
  unfold registerAll
  exact regGo_foldl_noop canons (ents, []) h

theorem buildAllG_ok_mem (build : EntityID → ProbeDoc → Except CfgError EntityID)
    (sid : EntityID) :
    ∀ (docs : List ProbeDoc) (i : Nat) (acc m : List (String × Inst)),
      buildAllG build sid docs i acc = .ok m →
      ∀ p ∈ m, p ∈ acc ∨ ∃ d ∈ docs, build sid d = .ok p.2.id ∧
        p.1 = p.2.id.Canonical ∧ p.2 = ⟨p.2.id, p.2.id.Canonical, d, false⟩ := by
  intro docs
  induction docs with
  | nil =>
    intro i acc m h p hp
    simp only [buildAllG] at h
    cases h
    exact Or.inl hp
  | cons d ds ih =>
    intro i acc m h p hp
    simp only [buildAllG] at h
    cases hb : build sid d with
    | error e =>
      rw [hb] at h
      cases e <;> simp at h
    | ok id =>
      rw [hb] at h
      by_cases hdup : (lookupA id.Canonical acc).isSome
      · simp [hdup] at h
      · simp only [hdup, if_false, Bool.false_eq_true] at h
        rcases ih (i + 1) _ m h p hp with hmem | ⟨d2, hd2, hrest⟩
        · rcases List.mem_append.mp hmem with h2 | h2
          · exact Or.inl h2
          · simp only [List.mem_singleton] at h2
            subst h2
            exact Or.inr ⟨d, List.mem_cons_self _ _, by simp [hb]⟩
        · exact Or.inr ⟨d2, List.mem_cons_of_mem _ hd2, hrest⟩

theorem buildAllG_ok_covers (build : EntityID → ProbeDoc → Except CfgError EntityID)
    (sid : EntityID) :
    ∀ (docs : List ProbeDoc) (i : Nat) (acc m : List (String × Inst)),
      buildAllG build sid docs i acc = .ok m →
      (∀ p ∈ acc, p ∈ m) ∧
      ∀ d ∈ docs, ∃ id, build sid d = .ok id ∧
        (id.Canonical, (⟨id, id.Canonical, d, false⟩ : Inst)) ∈ m := by
  intro docs
  induction docs with
  | nil =>
    intro i acc m h
    simp only [buildAllG] at h
    cases h
    exact ⟨fun p hp => hp, by simp⟩
  | cons d ds ih =>
    intro i acc m h
    simp only [buildAllG] at h
    cases hb : build sid d with
    | error e =>
      rw [hb] at h
      cases e <;> simp at h
    | ok id =>
      rw [hb] at h
      by_cases hdup : (lookupA id.Canonical acc).isSome
      · simp [hdup] at h
      · simp only [hdup, if_false, Bool.false_eq_true] at h
        obtain ⟨hacc, hcov⟩ := ih (i + 1) _ m h
        refine ⟨fun p hp => hacc p (List.mem_append.mpr (Or.inl hp)), ?_⟩
        intro d2 hd2
        rcases List.mem_cons.mp hd2 with h2 | h2
        · subst h2
          exact ⟨id, hb, hacc _ (List.mem_append.mpr (Or.inr (by simp)))⟩
        · exact hcov d2 h2

theorem buildAllG_ok_nodup (build : EntityID → ProbeDoc → Except CfgError EntityID)
    (sid : EntityID) :
    ∀ (docs : List ProbeDoc) (i : Nat) (acc m : List (String × Inst)),
      buildAllG build sid docs i acc = .ok m →
      (keysOf acc).Nodup → (keysOf m).Nodup := by
  intro docs
  induction docs with
  | nil =>
    intro i acc m h hnd
    simp only [buildAllG] at h
    cases h
    exact hnd
  | cons d ds ih =>
    intro i acc m h hnd
    simp only [buildAllG] at h
    cases hb : build sid d with
    | error e =>
      rw [hb] at h
      cases e <;> simp at h
    | ok id =>
      rw [hb] at h
      by_cases hdup : (lookupA id.Canonical acc).isSome
      · simp [hdup] at h
      · simp only [hdup, if_false, Bool.false_eq_true] at h
        refine ih (i + 1) _ m h ?_
        have habs : id.Canonical ∉ keysOf acc := by
          intro hmem
          rw [← lookupA_isSome_iff_mem_keys] at hmem
          exact hdup hmem
        have hk : keysOf (acc ++ [(id.Canonical, (⟨id, id.Canonical, d, false⟩ : Inst))]) =
            keysOf acc ++ [id.Canonical] := by
          simp [keysOf]
        rw [hk]
        refine List.Nodup.append hnd (List.nodup_singleton _) ?_
        intro x hx hx2
        simp only [List.mem_singleton] at hx2
        exact habs (hx2 ▸ hx)

theorem removeGone_kept (newProbes : List (String × Inst)) :
    ∀ (ids : List String) (probes : List (String × Inst)),
      (∀ c ∈ ids, (lookupA c newProbes).isSome) →
      removeGone newProbes ids probes = some probes := by
  intro ids
  induction ids with
  | nil => intro probes _; rfl
  | cons c rest ih =>
    intro probes h
    simp only [removeGone, h c (List.mem_cons_self _ _), if_pos]
    exact ih probes (fun d hd => h d (List.mem_cons_of_mem _ hd))

theorem removeGone_isSome (newProbes : List (String × Inst)) :
    ∀ (ids : List String) (probes : List (String × Inst)),
      ids.Nodup → (∀ c ∈ ids, (lookupA c probes).isSome) →
      (removeGone newProbes ids probes).isSome := by
  intro ids
  induction ids with
  | nil => intro probes _ _; simp [removeGone]
  | cons c rest ih =>
    intro probes hnd hpres
    simp only [List.nodup_cons] at hnd
    simp only [removeGone]
    by_cases hin : (lookupA c newProbes).isSome
    · simp only [hin, if_pos]
      exact ih probes hnd.2 (fun d hd => hpres d (List.mem_cons_of_mem _ hd))
    · simp only [hin, if_neg, if_false]
      cases hl : lookupA c probes with
      | none =>
        have hx := hpres c (List.mem_cons_self _ _)
        rw [hl] at hx
        simp at hx
      | some inst =>
        simp only [stopInstanceUnsynced, hl]
        have hnext : ∀ p1, (∀ d ∈ rest, (lookupA d p1).isSome) →
            (removeGone newProbes rest (eraseA c p1)).isSome := by
          intro p1 hp1
          refine ih (eraseA c p1) hnd.2 ?_
          intro d hd
          rw [lookupA_eraseA]
          have hne : d ≠ c := fun h => hnd.1 (h ▸ hd)
          simp [hne]
          exact hp1 d hd
        by_cases hr : inst.running
        · simp only [hr, if_pos]
          refine hnext _ ?_
          intro d hd
          have hne : d ≠ c := fun h => hnd.1 (h ▸ hd)
          rw [lookupA_insertA_ne _ _ _ _ hne]
          exact hpres d (List.mem_cons_of_mem _ hd)
        · simp only [hr, if_neg, Bool.false_eq_true, if_false]
          refine hnext _ ?_
          intro d hd
          exact hpres d (List.mem_cons_of_mem _ hd)

theorem removeGone_lookup (newProbes : List (String × Inst)) :
    ∀ (ids : List String) (probes p1 : List (String × Inst)),
      removeGone newProbes ids probes = some p1 →
      ∀ c, lookupA c p1 =
        if c ∈ ids ∧ lookupA c newProbes = none then none else lookupA c probes := by
  intro ids
  induction ids with
  | nil =>
    intro probes p1 h c
    simp only [removeGone] at h
    cases h
    simp
  | cons c0 rest ih =>
    intro probes p1 h c
    simp only [removeGone] at h
    by_cases hin : (lookupA c0 newProbes).isSome
    · simp only [hin, if_pos] at h
      rw [ih probes p1 h c]
      by_cases hc : c = c0
      · subst hc
        rcases Option.isSome_iff_exists.mp hin with ⟨v, hv⟩
        simp [hv]
      · simp [List.mem_cons, hc]
    · simp only [hin, if_neg, if_false] at h
      cases hl : lookupA c0 probes with
      | none => simp [stopInstanceUnsynced, hl] at h
      | some inst =>
        simp only [stopInstanceUnsynced, hl] at h
        have hstep : ∀ p2, removeGone newProbes rest (eraseA c0 p2) = some p1 →
            (∀ d, d ≠ c0 → lookupA d p2 = lookupA d probes) →
            lookupA c p1 =
              if c ∈ c0 :: rest ∧ lookupA c newProbes = none then none
              else lookupA c probes := by
          intro p2 hrec hpre
          rw [ih _ p1 hrec c]
          by_cases hc : c = c0
          · subst hc
            rw [lookupA_eraseA]
            simp only [if_pos rfl]
            have hnone : lookupA c newProbes = none := by
              cases h2 : lookupA c newProbes with
              | none => rfl
              | some v => rw [h2] at hin; simp at hin
            simp [hnone, List.mem_cons]
          · rw [lookupA_eraseA]
            simp only [hc, if_false]
            rw [hpre c hc]
            simp [List.mem_cons, hc]
        by_cases hr : inst.running
        · simp only [hr, if_pos] at h
          exact hstep _ h (fun d hd => lookupA_insertA_ne _ _ _ _ hd)
        · simp only [hr, Bool.false_eq_true, if_false] at h
          exact hstep _ h (fun d _ => rfl)

theorem addAll_lookup :
    ∀ (np probes : List (String × Inst)), (keysOf np).Nodup →
      ∀ c, lookupA c (addAll np probes).1 =
        match lookupA c np with
        | some inst => some { inst with running := true }
        | none => lookupA c probes := by
  intro np
  induction np with
  | nil => intro probes _ c; simp [addAll]
  | cons p0 rest ih =>
    obtain ⟨c0, i0⟩ := p0
    intro probes hnd c
    simp only [keysOf, List.map_cons, List.nodup_cons] at hnd
    simp only [addAll]
    rw [ih _ hnd.2 c]
    by_cases hc : c0 = c
    · subst hc
      have hrest : lookupA c0 rest = none := by
        rw [lookupA_eq_none_iff_not_mem]
        simpa [keysOf] using hnd.1
      simp [hrest, lookupA_insertA_self]
    · have hne : c ≠ c0 := fun h => hc h.symm
      simp only [lookupA_cons, hc, if_false]
      cases h2 : lookupA c rest with
      | some v => simp
      | none =>
        simp only []
        rw [lookupA_insertA_ne c0 c _ _ hne]
        cases h3 : lookupA c0 probes with
        | none => rfl
        | some old =>
          by_cases hr : old.running
          · simp only [h3, hr, if_pos]
            exact lookupA_insertA_ne c0 c _ _ hne
          · simp only [h3, hr, Bool.false_eq_true, if_false]

theorem addAll_started :
    ∀ (np probes : List (String × Inst)), (addAll np probes).2.1 = keysOf np := by
  intro np
  induction np with
  | nil => intro probes; rfl
  | cons p0 rest ih =>
    obtain ⟨c0, i0⟩ := p0
    intro probes
    simp only [addAll, keysOf, List.map_cons]
    rw [ih]
    simp [keysOf]

theorem addAll_events :
    ∀ (np probes : List (String × Inst)),
      (addAll np probes).2.2 = (keysOf np).map Event.start := by
  intro np
  induction np with
  | nil => intro probes; rfl
  | cons p0 rest ih =>
    obtain ⟨c0, i0⟩ := p0
    intro probes
    simp only [addAll, keysOf, List.map_cons]
    rw [ih]
    simp [keysOf]

theorem addAll_idem :
    ∀ (np probes : List (String × Inst)),
      (∀ p0 ∈ np, lookupA p0.1 probes = some { p0.2 with running := true }) →
      (addAll np probes).1 = probes := by
  intro np
  induction np with
  | nil => intro probes _; rfl
  | cons p0 rest ih =>
    obtain ⟨c0, i0⟩ := p0
    intro probes hpres
    have h0 := hpres (c0, i0) (List.mem_cons_self _ _)
    simp only at h0
    simp only [addAll, h0]
    split_ifs with hcond
    · rw [insertA_insertA_same, insertA_self_eq _ _ _ h0]
      exact ih probes (fun q hq => hpres q (List.mem_cons_of_mem _ hq))
    · exact absurd trivial hcond

theorem addAll_fresh :
    ∀ (np probes : List (String × Inst)), (keysOf np).Nodup →
      (∀ c ∈ keysOf np, lookupA c probes = none) →
      (addAll np probes).1 = probes ++ np.map (fun p => (p.1, { p.2 with running := true })) := by
  intro np
  induction np with
  | nil => intro probes _ _; simp [addAll]
  | cons p0 rest ih =>
    obtain ⟨c0, i0⟩ := p0
    intro probes hnd habs
    simp only [keysOf, List.map_cons, List.nodup_cons] at hnd
    have h0 : lookupA c0 probes = none := habs c0 (by simp [keysOf])
    simp only [addAll, h0]
    have habs2 : ∀ c ∈ keysOf rest,
        lookupA c (insertA c0 { i0 with running := true } probes) = none := by
      intro c hc
      have hne : c ≠ c0 := fun h => hnd.1 (by simpa [keysOf, h] using hc)
      rw [lookupA_insertA_ne c0 c _ _ hne]
      exact habs c (by simp [keysOf]; exact Or.inr (by simpa [keysOf] using hc))
    rw [ih _ hnd.2 habs2, insertA_append_of_absent _ _ _ h0]
    simp

theorem LoadService_ok_inversion
    (build : EntityID → ProbeDoc → Except CfgError EntityID) (sid : EntityID)
    (docs : List ProbeDoc) (st : SchedState) (ents : List String)
    (st2 : SchedState) (ents2 started : List String) (evs : List Event)
    (h : LoadService build sid docs st ents = .ok st2 ents2 started evs) :
    ∃ np p1, buildAllG build sid docs 0 [] = .ok np ∧
      removeGone np ((lookupA sid.Canonical st.services).getD []) st.probes = some p1 ∧
      st2 = ⟨(addAll np p1).1, insertA sid.Canonical (keysOf np) st.services⟩ ∧
      ents2 = (registerAll (keysOf np) ents).1 ∧
      started = (addAll np p1).2.1 ∧
      evs = (registerAll (keysOf np) ents).2 ++ (addAll np p1).2.2 := by
  unfold LoadService at h
  cases hb : buildAllG build sid docs 0 [] with
  | error e => rw [hb] at h; simp at h
  | ok np =>
    rw [hb] at h
    simp only at h
    cases hr : removeGone np ((lookupA sid.Canonical st.services).getD []) st.probes with
    | none => rw [hr] at h; simp at h
    | some p1 =>
      rw [hr] at h
      simp only [LoadRes.ok.injEq] at h
      obtain ⟨h1, h2, h3, h4⟩ := h
      exact ⟨np, p1, rfl, hr, h1.symm, h2.symm, h3.symm, h4.symm⟩

/-- Loading a service whose desired probes are all fresh (no previous entry
for the service, no desired ID in the probe map) appends the new instances,
running, to the probe map. -/
theorem LoadService_fresh
    (build : EntityID → ProbeDoc → Except CfgError EntityID) (sid : EntityID)
    (docs : List ProbeDoc) (st : SchedState) (ents : List String)
    (np : List (String × Inst))
    (hok : buildAllG build sid docs 0 [] = .ok np)
    (hnd : (keysOf np).Nodup)
    (hentry : lookupA sid.Canonical st.services = none)
    (habsent : ∀ c ∈ keysOf np, lookupA c st.probes = none) :
    LoadService build sid docs st ents =
      .ok ⟨st.probes ++ np.map (fun p => (p.1, { p.2 with running := true })),
           insertA sid.Canonical (keysOf np) st.services⟩
        (registerAll (keysOf np) ents).1 (keysOf np)
        ((registerAll (keysOf np) ents).2 ++ (keysOf np).map Event.start) := by
  unfold LoadService
  rw [hok]
  simp only [hentry, Option.getD_none]
  rw [show removeGone np [] st.probes = some st.probes from rfl]
  simp only []
  rw [addAll_fresh np st.probes hnd habsent, addAll_started, addAll_events]

/-- Reloading a service with the configuration it already runs leaves the
scheduler maps and the entity set untouched. -/
theorem LoadService_idem
    (build : EntityID → ProbeDoc → Except CfgError EntityID) (sid : EntityID)
    (docs : List ProbeDoc) (st : SchedState) (ents : List String)
    (np : List (String × Inst))
    (hok : buildAllG build sid docs 0 [] = .ok np)
    (hentry : lookupA sid.Canonical st.services = some (keysOf np))
    (hinst : ∀ p0 ∈ np, lookupA p0.1 st.probes = some { p0.2 with running := true })
    (hents : ∀ c ∈ keysOf np, c ∈ ents) :
    LoadService build sid docs st ents =
      .ok st ents (keysOf np) ((keysOf np).map Event.start) := by
  unfold LoadService
  rw [hok]
  simp only [hentry, Option.getD_some]
  have hkept : removeGone np (keysOf np) st.probes = some st.probes := by
    apply removeGone_kept
    intro c hc
    rw [lookupA_isSome_iff_mem_keys]
    exact hc
  rw [hkept]
  simp only []
  rw [addAll_idem np st.probes hinst, addAll_started, addAll_events,
    registerAll_noop (keysOf np) ents hents]
  have hsvc : insertA sid.Canonical (keysOf np) st.services = st.services :=
    insertA_self_eq _ _ _ hentry
  rw [hsvc]
  cases st
  rfl

/-! ### Claim C3 -/

/-- Running `buildAllG` over an appended list continues from the
accumulator of the successful prefix, with the index advanced. -/
theorem buildAllG_append (build : EntityID → ProbeDoc → Except CfgError EntityID)
    (sid : EntityID) :
    ∀ (pre more : List ProbeDoc) (i : Nat) (acc m : List (String × Inst)),
      buildAllG build sid pre i acc = .ok m →
      buildAllG build sid (pre ++ more) i acc =
        buildAllG build sid more (i + pre.length) m := by
  intro pre
  induction pre with
  | nil =>
    intro more i acc m h
    simp only [buildAllG] at h
    cases h
    simp
  | cons d ds ih =>
    intro more i acc m h
    simp only [buildAllG] at h
    cases hb : build sid d with
    | error e => rw [hb] at h; cases e <;> simp at h
    | ok id =>
      rw [hb] at h
      by_cases hdup : (lookupA id.Canonical acc).isSome
      · simp [hdup] at h
      · simp only [hdup, if_false, Bool.false_eq_true] at h
        simp only [List.cons_append, buildAllG, hb, hdup, if_false, Bool.false_eq_true,
          List.append_eq]
        rw [ih more (i + 1) _ m h]
        congr 1
        simp only [List.length_cons]
        omega

/-- `LoadService` with the state kept on failure (the caller's view of the
shared scheduler: a failing call leaves the maps and the entity rows as
they were, since the error returns precede every mutation). -/
def applyLoad (build : EntityID → ProbeDoc → Except CfgError EntityID)
    (sid : EntityID) (docs : List ProbeDoc) (st : SchedState) (ents : List String) :
    SchedState × List String :=
  match LoadService build sid docs st ents with
  | .ok st2 ents2 _ _ => (st2, ents2)
  | _ => (st, ents)

/-- C3.  Duplicate detection with atomic failure: if the raw probe list is
a prefix that builds cleanly followed by an entry whose canonical ID is
already among the prefix's IDs, `LoadService` returns a Duplicate error
whose path cites the positional index of that second entry, and the
scheduler state is unchanged — no probe from this call is registered in
the entity repository, installed in the probe map, or started. -/
theorem C3_duplicate_atomic_failure
    (build : EntityID → ProbeDoc → Except CfgError EntityID) (sid : EntityID)
    (pre : List ProbeDoc) (d : ProbeDoc) (rest : List ProbeDoc)
    (st : SchedState) (ents : List String)
    (npre : List (String × Inst)) (idd : EntityID)
    (hpre : buildAllG build sid pre 0 [] = .ok npre)
    (hd : build sid d = .ok idd)
    (hdup : (lookupA idd.Canonical npre).isSome) :
    LoadService build sid (pre ++ d :: rest) st ents =
      .fail (.duplicate (pathJoin [svcNameOf sid, toString pre.length])) ∧
    applyLoad build sid (pre ++ d :: rest) st ents = (st, ents) := by
  have hbuild : buildAllG build sid (pre ++ d :: rest) 0 [] =
      .error (.duplicate (pathJoin [svcNameOf sid, toString pre.length])) := by
    rw [buildAllG_append build sid pre (d :: rest) 0 [] npre hpre]
    simp only [buildAllG, hd, hdup, if_pos, Nat.zero_add]
  constructor
  · unfold LoadService
    rw [hbuild]
  · unfold applyLoad LoadService
    rw [hbuild]

/-- Witness for C3: two http monitors sharing name and type in one list. -/
theorem C3_duplicate_atomic_failure_witness :
    LoadService BuildMonitor (NewServiceID "i" "s")
      [{ ptype := "http", pname := "m", interval := 60, url := "http://a" },
       { ptype := "http", pname := "m", interval := 60, url := "http://b" }]
      emptySched [] =
      .fail (.duplicate (pathJoin [svcNameOf (NewServiceID "i" "s"), toString 1])) ∧
    applyLoad BuildMonitor (NewServiceID "i" "s")
      [{ ptype := "http", pname := "m", interval := 60, url := "http://a" },
       { ptype := "http", pname := "m", interval := 60, url := "http://b" }]
      emptySched [] = (emptySched, []) := by
  have h := C3_duplicate_atomic_failure BuildMonitor (NewServiceID "i" "s")
    [{ ptype := "http", pname := "m", interval := 60, url := "http://a" }]
    { ptype := "http", pname := "m", interval := 60, url := "http://b" } []
    emptySched []
    (buildAllG BuildMonitor (NewServiceID "i" "s")
      [{ ptype := "http", pname := "m", interval := 60, url := "http://a" }] 0 []
      |>.toOption.getD [])
    (NewMonitorIDFromServiceID (NewServiceID "i" "s") "http" "m")
    (by rfl) (by rfl) (by decide)
  simpa using h

/-! ### Claim C4 -/

/-- Every written outcome is preceded, in wall-clock order, by the
insertion of the referenced entity row. -/
def traceGood (tr : List Event) : Prop :=
  ∀ (i : Nat) (c : String), tr[i]? = some (Event.outcome c) →
    ∃ j : Nat, j < i ∧ tr[j]? = some (Event.insertEntity c)

theorem traceGood_append_no_outcome (tr evs : List Event)
    (hno : ∀ e ∈ evs, ∀ c, e ≠ Event.outcome c) (hg : traceGood tr) :
    traceGood (tr ++ evs) := by
  unfold traceGood at hg ⊢
  intro i c hi
  by_cases hlt : i < tr.length
  · rw [List.getElem?_append_left hlt] at hi
    obtain ⟨j, hj, hjev⟩ := hg i c hi
    exact ⟨j, hj, by rw [List.getElem?_append_left (lt_trans hj hlt)]; exact hjev⟩
  · rw [List.getElem?_append_right (le_of_not_lt hlt)] at hi
    have hmem : Event.outcome c ∈ evs := by
      obtain ⟨h1, h2⟩ := List.getElem?_eq_some.mp hi
      exact h2 ▸ List.getElem_mem h1
    exact absurd rfl (hno _ hmem c)

theorem traceGood_snoc_outcome (tr : List Event) (c : String)
    (hmem : Event.insertEntity c ∈ tr) (hg : traceGood tr) :
    traceGood (tr ++ [.outcome c]) := by
  unfold traceGood at hg ⊢
  intro i c2 hi
  by_cases hlt : i < tr.length
  · rw [List.getElem?_append_left hlt] at hi
    obtain ⟨j, hj, hjev⟩ := hg i c2 hi
    exact ⟨j, hj, by rw [List.getElem?_append_left (lt_trans hj hlt)]; exact hjev⟩
  · rw [List.getElem?_append_right (le_of_not_lt hlt)] at hi
    have hi2 : i - tr.length = 0 := by
      obtain ⟨h1, _⟩ := List.getElem?_eq_some.mp hi
      simp at h1
      omega
    rw [hi2] at hi
    simp at hi
    subst hi
    obtain ⟨j, hjlt, hjev⟩ := List.getElem_of_mem hmem
    refine ⟨j, by omega, ?_⟩
    rw [List.getElem?_append_left hjlt, List.getElem?_eq_getElem hjlt]
    exact congrArg some hjev

/-- The inductive invariant behind C4: registered entities have their
insertion on the trace, live tasks are registered, and the trace itself is
entity-before-outcome ordered. -/
def WorldInv (w : World) : Prop :=
  (∀ c ∈ w.ents, Event.insertEntity c ∈ w.trace) ∧
  (∀ c ∈ w.tasks, c ∈ w.ents) ∧
  traceGood w.trace

theorem ReachP_WorldInv (build : EntityID → ProbeDoc → Except CfgError EntityID)
    (P : EntityID → List ProbeDoc → Prop) (w : World)
    (hw : ReachP build P w) : WorldInv w := by
  induction hw with
  | init =>
    refine ⟨by simp [w0], by simp [w0], ?_⟩
    unfold traceGood
    intro i c hi
    simp [w0] at hi
  | load w sid docs st2 ents2 started evs hre hP hok ih =>
    obtain ⟨ih1, ih2, ih3⟩ := ih
    obtain ⟨np, p1, hb, hr, hst2, hents2, hstarted, hevs⟩ :=
      LoadService_ok_inversion build sid docs w.st w.ents st2 ents2 started evs hok
    obtain ⟨r1, r2, r3, r4, r5, r6⟩ := regGo_foldl_spec (keysOf np) (w.ents, [])
    refine ⟨?_, ?_, ?_⟩
    · intro c hc
      rw [hents2] at hc
      rcases r5 c hc with h | h
      · exact List.mem_append.mpr (Or.inl (ih1 c h))
      · rw [hevs]
        refine List.mem_append.mpr (Or.inr (List.mem_append.mpr (Or.inl h)))
    · intro c hc
      rw [hents2]
      rcases List.mem_append.mp hc with h | h
      · exact r1 c (ih2 c h)
      · rw [hstarted, addAll_started] at h
        exact r2 c h
    · rw [hevs, ← List.append_assoc]
      have hg1 : traceGood (w.trace ++ (registerAll (keysOf np) w.ents).2) := by
        apply traceGood_append_no_outcome _ _ ?_ ih3
        intro e he c hce
        rcases r6 e he with h | h
        · simp at h
        · obtain ⟨c2, hc2⟩ := h
          rw [hce] at hc2
          cases hc2
      apply traceGood_append_no_outcome _ _ ?_ hg1
      rw [addAll_events]
      intro e he c hce
      obtain ⟨c2, _, hc2⟩ := List.mem_map.mp he
      rw [hce] at hc2
      cases hc2
  | tick w c r hre hmem ih =>
    obtain ⟨ih1, ih2, ih3⟩ := ih
    refine ⟨fun c2 hc2 => List.mem_append.mpr (Or.inl (ih1 c2 hc2)), ih2, ?_⟩
    unfold tickEvents
    by_cases hc : runResIsCanceled r
    · simpa [hc] using ih3
    · simp only [hc, Bool.false_eq_true, if_false]
      exact traceGood_snoc_outcome w.trace c (ih1 c (ih2 c hmem)) ih3
  | taskExit w c hre ih =>
    obtain ⟨ih1, ih2, ih3⟩ := ih
    exact ⟨ih1, fun c2 hc2 => ih2 c2 (List.mem_of_mem_erase hc2), ih3⟩

/-- C4.  Entity-before-outcome ordering: in every reachable world, every
written heartbeat or sample is preceded on the trace by the insertion of
the referenced entity row (LoadService registers the desired entities
before it starts any tick task); and the timer of a tick task fires for
the first time only one full interval after start. -/
theorem C4_entity_before_outcome
    (build : EntityID → ProbeDoc → Except CfgError EntityID)
    (P : EntityID → List ProbeDoc → Prop) (w : World)
    (hw : ReachP build P w) :
    (∀ (i : Nat) (c : String), w.trace[i]? = some (Event.outcome c) →
      ∃ j : Nat, j < i ∧ w.trace[j]? = some (Event.insertEntity c)) ∧
    (∀ (interval : Int) (k : Nat), 0 < interval →
      interval ≤ tickerFireTime interval k) := by
  refine ⟨(ReachP_WorldInv build P w hw).2.2, ?_⟩
  intro interval k hpos
  unfold tickerFireTime
  nlinarith [Int.ofNat_nonneg k]

/-- A world transformer for building concrete reachable worlds. -/
def applyLoadW (build : EntityID → ProbeDoc → Except CfgError EntityID)
    (sid : EntityID) (docs : List ProbeDoc) (w : World) : World :=
  match LoadService build sid docs w.st w.ents with
  | .ok st2 ents2 started evs => ⟨st2, ents2, w.tasks ++ started, w.trace ++ evs⟩
  | _ => w

theorem ReachP_applyLoadW (build : EntityID → ProbeDoc → Except CfgError EntityID)
    (P : EntityID → List ProbeDoc → Prop) (sid : EntityID) (docs : List ProbeDoc)
    (w : World) (hw : ReachP build P w) (hP : P sid docs) :
    ReachP build P (applyLoadW build sid docs w) := by
  unfold applyLoadW
  cases h : LoadService build sid docs w.st w.ents with
  | ok st2 ents2 started evs => exact ReachP.load w sid docs st2 ents2 started evs hw hP h
  | fail e => exact hw
  | crash => exact hw

/-- Witness for C4: a world with one loaded http monitor and one completed
tick; the heartbeat at position 2 is preceded by the entity insertion. -/
theorem C4_entity_before_outcome_witness :
    (∃ j, j < 2 ∧
      (World.mk
        (applyLoadW BuildMonitor (NewServiceID "i" "s")
          [{ ptype := "http", pname := "m", interval := 60, url := "http://a" }] w0).st
        (applyLoadW BuildMonitor (NewServiceID "i" "s")
          [{ ptype := "http", pname := "m", interval := 60, url := "http://a" }] w0).ents
        (applyLoadW BuildMonitor (NewServiceID "i" "s")
          [{ ptype := "http", pname := "m", interval := 60, url := "http://a" }] w0).tasks
        ((applyLoadW BuildMonitor (NewServiceID "i" "s")
          [{ ptype := "http", pname := "m", interval := 60, url := "http://a" }] w0).trace ++
          tickEvents
            (NewMonitorIDFromServiceID (NewServiceID "i" "s") "http" "m").Canonical
            RunRes.ok)).trace[j]? =
        some (Event.insertEntity
          (NewMonitorIDFromServiceID (NewServiceID "i" "s") "http" "m").Canonical)) ∧
    (5 : Int) ≤ tickerFireTime 5 0 := by
  have hw1 : ReachP BuildMonitor (fun _ _ => True)
      (applyLoadW BuildMonitor (NewServiceID "i" "s")
        [{ ptype := "http", pname := "m", interval := 60, url := "http://a" }] w0) :=
    ReachP_applyLoadW _ _ _ _ _ ReachP.init trivial
  have hw2 := ReachP.tick _ (NewMonitorIDFromServiceID (NewServiceID "i" "s") "http" "m").Canonical
    RunRes.ok hw1 (by decide)
  exact ⟨(C4_entity_before_outcome BuildMonitor (fun _ _ => True) _ hw2).1 2 _ (by decide),
    (C4_entity_before_outcome BuildMonitor (fun _ _ => True) _ hw2).2 5 0 (by decide)⟩

/-! ### Claim C10 -/

/-- C10 (counterexample to the claim as stated).  Probe names taken from
the configuration may contain the ID separator, and then two distinct
services can share one monitor canonical ID.  Loading service `y` with
monitor name `n|service=x`, then service `x|service=y` with monitor `n`
(the same canonical ID), then service `y` with an empty list deletes the
shared probe while the entry of `x|service=y` still records it: a
reachable state in which a ServiceInstance lists an ID that is not a key
of the probe map — and the very next `LoadService` for `x|service=y`
dereferences the missing entry (a nil-pointer panic in the Go code). -/
theorem C10_claim_counterexample :
    ∃ w : World, ReachP BuildMonitor (fun _ _ => True) w ∧
      ∃ sc ids c, lookupA sc w.st.services = some ids ∧ c ∈ ids ∧
        lookupA c w.st.probes = none ∧
        LoadService BuildMonitor (NewServiceID "i" "x|service=y") [] w.st w.ents =
          .crash := by
  refine ⟨applyLoadW BuildMonitor (NewServiceID "i" "y") []
      (applyLoadW BuildMonitor (NewServiceID "i" "x|service=y")
        [{ ptype := "http", pname := "n", interval := 60, url := "http://a" }]
        (applyLoadW BuildMonitor (NewServiceID "i" "y")
          [{ ptype := "http", pname := "n|service=x", interval := 60, url := "http://a" }]
          w0)),
    ?_, (NewServiceID "i" "x|service=y").Canonical,
    [(NewMonitorIDFromServiceID (NewServiceID "i" "x|service=y") "http" "n").Canonical],
    (NewMonitorIDFromServiceID (NewServiceID "i" "x|service=y") "http" "n").Canonical,
    ?_, ?_, ?_, ?_⟩
  · exact ReachP_applyLoadW _ _ _ _ _
      (ReachP_applyLoadW _ _ _ _ _
        (ReachP_applyLoadW _ _ _ _ _ ReachP.init trivial) trivial) trivial
  · decide
  · decide
  · decide
  · decide

/-- The shape of every ID a probe builder returns: the parent's `instance`
label, the parent's `name` as the `service` label, and the document's own
type and name. -/
def probeIdOf (kind : String) (sid : EntityID) (d : ProbeDoc) : EntityID :=
  ⟨kind, [("instance", labelOf sid "instance"), ("service", labelOf sid "name"),
          ("type", d.ptype), ("name", d.pname)]⟩

theorem BuildMonitor_shape (sid : EntityID) (d : ProbeDoc) (id : EntityID)
    (h : BuildMonitor sid d = .ok id) : id = probeIdOf "monitor" sid d := by
  unfold BuildMonitor at h
  by_cases hp : monitorConfigProblems d ≠ []
  · simp [hp] at h
  · simp only [hp, if_false] at h
    split at h <;> first
      | (cases h)
      | (split at h
         · cases h
         · cases h
           rfl)

theorem BuildMetric_shape (sid : EntityID) (d : ProbeDoc) (id : EntityID)
    (h : BuildMetric sid d = .ok id) : id = probeIdOf "metric" sid d := by
  unfold BuildMetric at h
  by_cases hp : metricConfigProblems d ≠ []
  · simp [hp] at h
  · simp only [hp, if_false] at h
    split at h
    · cases h
      rfl
    · cases h

/-- The `(instance, service)` labels recovered by parsing a canonical ID:
the owner of a probe ID. -/
def ownerOf (c : String) : Option String × Option String :=
  (lookupA "instance" (ParseEntityID c).Labels,
   lookupA "service" (ParseEntityID c).Labels)

theorem ownerOf_probeId (kind A S T N : String) (hkind : cleanStr kind)
    (hA : cleanStr A) (hS : cleanStr S) (hT : cleanStr T) (hN : cleanStr N) :
    ownerOf (EntityID.Canonical
      ⟨kind, [("instance", A), ("service", S), ("type", T), ("name", N)]⟩) =
      (some A, some S) := by
  have hc : cleanID ⟨kind, [("instance", A), ("service", S), ("type", T), ("name", N)]⟩ := by
    refine ⟨hkind, by simp [keysOf], ?_⟩
    intro p hp
    simp only [List.mem_cons, List.not_mem_nil, or_false] at hp
    rcases hp with rfl | rfl | rfl | rfl
    · exact ⟨show cleanStr "instance" by decide, show "instance" ≠ "kind" by decide, hA⟩
    · exact ⟨show cleanStr "service" by decide, show "service" ≠ "kind" by decide, hS⟩
    · exact ⟨show cleanStr "type" by decide, show "type" ≠ "kind" by decide, hT⟩
    · exact ⟨show cleanStr "name" by decide, show "name" ≠ "kind" by decide, hN⟩
  have h := parse_canonical_clean _ hc
  unfold ownerOf
  rw [h.2 "instance", h.2 "service"]
  simp [lookupA]

/-- The call filter for the amended C10: service IDs built from clean
instance and service names, probe documents with clean types and names. -/
def cleanCall (sid : EntityID) (docs : List ProbeDoc) : Prop :=
  (∃ A S, sid = NewServiceID A S ∧ cleanStr A ∧ cleanStr S) ∧
  ∀ d ∈ docs, cleanStr d.ptype ∧ cleanStr d.pname

/-- The amended membership invariant: every service entry lists only IDs
that are keys of the probe map, each owned by that service. -/
def SchedInv (st : SchedState) : Prop :=
  ∀ sc ids, lookupA sc st.services = some ids →
    ids.Nodup ∧
    ∃ A S, cleanStr A ∧ cleanStr S ∧ sc = (NewServiceID A S).Canonical ∧
      ∀ c ∈ ids, (lookupA c st.probes).isSome ∧ ownerOf c = (some A, some S)

theorem labelOf_NewServiceID_instance (A S : String) :
    labelOf (NewServiceID A S) "instance" = A := rfl

theorem labelOf_NewServiceID_name (A S : String) :
    labelOf (NewServiceID A S) "name" = S := rfl

theorem SchedInv_empty : SchedInv emptySched := by
  intro sc ids h
  simp [emptySched, lookupA] at h

theorem SchedInv_load (build : EntityID → ProbeDoc → Except CfgError EntityID)
    (kind : String)
    (hshape : ∀ sid d id, build sid d = .ok id → id = probeIdOf kind sid d)
    (hkind : cleanStr kind)
    (sid : EntityID) (docs : List ProbeDoc) (st : SchedState) (ents : List String)
    (st2 : SchedState) (ents2 started : List String) (evs : List Event)
    (hcall : cleanCall sid docs)
    (hok : LoadService build sid docs st ents = .ok st2 ents2 started evs)
    (hinv : SchedInv st) : SchedInv st2 := by
  obtain ⟨⟨A0, S0, hsid, hA0, hS0⟩, hdocs⟩ := hcall
  obtain ⟨np, p1, hb, hr, hst2, _, _, _⟩ :=
    LoadService_ok_inversion build sid docs st ents st2 ents2 started evs hok
  have hnd : (keysOf np).Nodup :=
    buildAllG_ok_nodup build sid docs 0 [] np hb (by simp)
  have howner : ∀ c ∈ keysOf np, ownerOf c = (some A0, some S0) := by
    intro c hc
    obtain ⟨v, hv⟩ := (mem_keysOf_iff c np).mp hc
    rcases buildAllG_ok_mem build sid docs 0 [] np hb (c, v) hv with h | ⟨d, hd, hbd, hcan, _⟩
    · simp at h
    · have hid := hshape sid d v.id hbd
      have hcan2 : c = v.id.Canonical := hcan
      rw [hcan2, hid, hsid]
      unfold probeIdOf
      rw [hsid] at hid
      simp only [labelOf_NewServiceID_instance, labelOf_NewServiceID_name]
      exact ownerOf_probeId kind A0 S0 d.ptype d.pname hkind hA0 hS0
        (hdocs d hd).1 (hdocs d hd).2
  have hpres : ∀ c ∈ keysOf np, (lookupA c st2.probes).isSome := by
    intro c hc
    rw [hst2]
    simp only []
    rw [addAll_lookup np p1 hnd c]
    obtain ⟨v, hv⟩ := Option.isSome_iff_exists.mp
      ((lookupA_isSome_iff_mem_keys c np).mpr hc)
    simp [hv]
  intro sc ids hsc
  rw [hst2] at hsc
  simp only at hsc
  by_cases hsceq : sid.Canonical = sc
  · subst hsceq
    rw [lookupA_insertA_self] at hsc
    cases hsc
    refine ⟨hnd, A0, S0, hA0, hS0, by rw [hsid], ?_⟩
    intro c hc
    exact ⟨hpres c hc, howner c hc⟩
  · rw [lookupA_insertA_ne _ _ _ _ (fun h => hsceq h.symm)] at hsc
    obtain ⟨hndi, A, S, hA, hS, hscdef, hmem⟩ := hinv sc ids hsc
    refine ⟨hndi, A, S, hA, hS, hscdef, ?_⟩
    intro c hc
    obtain ⟨hcs, hcown⟩ := hmem c hc
    refine ⟨?_, hcown⟩
    rw [hst2]
    simp only []
    rw [addAll_lookup np p1 hnd c]
    cases hnp : lookupA c np with
    | some v => simp
    | none =>
      simp only []
      rw [removeGone_lookup np _ st.probes p1 hr c]
      have hnotold : ¬ (c ∈ (lookupA sid.Canonical st.services).getD [] ∧
          lookupA c np = none) := by
        rintro ⟨hcold, _⟩
        cases hold : lookupA sid.Canonical st.services with
        | none => rw [hold] at hcold; simp at hcold
        | some oldIDs =>
          rw [hold] at hcold
          simp only [Option.getD_some] at hcold
          obtain ⟨_, A2, S2, hA2, hS2, hsc0def, hmem2⟩ := hinv sid.Canonical oldIDs hold
          have ho2 := (hmem2 c hcold).2
          rw [hcown] at ho2
          have hAS : A = A2 ∧ S = S2 := by
            constructor
            · have := congrArg Prod.fst ho2
              simpa using this
            · have := congrArg Prod.snd ho2
              simpa using this
          apply hsceq
          rw [hsc0def, hscdef, hAS.1, hAS.2]
    
      simp only [hnotold, if_false]
      exact hcs

theorem ReachP_SchedInv (build : EntityID → ProbeDoc → Except CfgError EntityID)
    (kind : String)
    (hshape : ∀ sid d id, build sid d = .ok id → id = probeIdOf kind sid d)
    (hkind : cleanStr kind) (w : World)
    (hw : ReachP build cleanCall w) : SchedInv w.st := by
  induction hw with
  | init => exact SchedInv_empty
  | load w sid docs st2 ents2 started evs hre hP h ih =>
    exact SchedInv_load build kind hshape hkind sid docs w.st w.ents
      st2 ents2 started evs hP h ih
  | tick w c r hre hmem ih => exact ih
  | taskExit w c hre ih => exact ih

/-- C10 (amended).  Provided every `LoadService` call names its service
and probes with strings free of the ID separator `|` and of `=`, every
reachable scheduler state satisfies the membership invariant — every ID
recorded in a ServiceInstance's probe-ID list is a key of the probe map —
and consequently the unchecked map lookups of the removal loop and of
`stopInstanceUnsynced` always find an instance: no clean `LoadService`
call can crash on a missing (nil) entry. -/
theorem C10_membership_invariant_amended
    (build : EntityID → ProbeDoc → Except CfgError EntityID) (kind : String)
    (hshape : ∀ sid d id, build sid d = .ok id → id = probeIdOf kind sid d)
    (hkind : cleanStr kind) (w : World)
    (hw : ReachP build cleanCall w) :
    (∀ sc ids, lookupA sc w.st.services = some ids →
      ∀ c ∈ ids, (lookupA c w.st.probes).isSome) ∧
    (∀ sid docs, cleanCall sid docs →
      LoadService build sid docs w.st w.ents ≠ .crash) := by
  have hinv := ReachP_SchedInv build kind hshape hkind w hw
  constructor
  · intro sc ids hsc c hc
    obtain ⟨_, A, S, _, _, _, hmem⟩ := hinv sc ids hsc
    exact (hmem c hc).1
  · intro sid docs hcall hcrash
    unfold LoadService at hcrash
    cases hb : buildAllG build sid docs 0 [] with
    | error e => rw [hb] at hcrash; simp at hcrash
    | ok np =>
      rw [hb] at hcrash
      simp only at hcrash
      cases hold : lookupA sid.Canonical w.st.services with
      | none =>
        rw [hold] at hcrash
        simp [removeGone] at hcrash
      | some oldIDs =>
        rw [hold] at hcrash
        simp only [Option.getD_some] at hcrash
        obtain ⟨hndi, A, S, _, _, _, hmem⟩ := hinv sid.Canonical oldIDs hold
        have hsome := removeGone_isSome np oldIDs w.st.probes hndi
          (fun c hc => (hmem c hc).1)
        cases hrg : removeGone np oldIDs w.st.probes with
        | none => rw [hrg] at hsome; simp at hsome
        | some p1 => rw [hrg] at hcrash; simp at hcrash

/-- Witness for the amended C10 at a concrete clean world. -/
theorem C10_membership_invariant_amended_witness :
    (lookupA (NewMonitorIDFromServiceID (NewServiceID "i" "s") "http" "m").Canonical
      (applyLoadW BuildMonitor (NewServiceID "i" "s")
        [{ ptype := "http", pname := "m", interval := 60, url := "http://a" }]
        w0).st.probes).isSome ∧
    LoadService BuildMonitor (NewServiceID "i" "s") []
      (applyLoadW BuildMonitor (NewServiceID "i" "s")
        [{ ptype := "http", pname := "m", interval := 60, url := "http://a" }] w0).st
      (applyLoadW BuildMonitor (NewServiceID "i" "s")
        [{ ptype := "http", pname := "m", interval := 60, url := "http://a" }]
        w0).ents ≠ .crash := by
  have hcall1 : cleanCall (NewServiceID "i" "s")
      [{ ptype := "http", pname := "m", interval := 60, url := "http://a" }] :=
    ⟨⟨"i", "s", rfl, by decide, by decide⟩, by decide⟩
  have hw : ReachP BuildMonitor cleanCall
      (applyLoadW BuildMonitor (NewServiceID "i" "s")
        [{ ptype := "http", pname := "m", interval := 60, url := "http://a" }] w0) :=
    ReachP_applyLoadW _ _ _ _ _ ReachP.init hcall1
  have h := C10_membership_invariant_amended BuildMonitor "monitor"
    BuildMonitor_shape (by decide) _ hw
  refine ⟨?_, h.2 (NewServiceID "i" "s") [] ⟨⟨"i", "s", rfl, by decide, by decide⟩, by decide⟩⟩
  exact h.1 (NewServiceID "i" "s").Canonical
    [(NewMonitorIDFromServiceID (NewServiceID "i" "s") "http" "m").Canonical]
    (by decide) _ (by decide)

/-! ### Config loader (`internal/config/application/loader.go`)

The loader is modelled over parsed documents: the outer `json.Unmarshal`
of the raw bytes and the per-service re-decoding into raw sub-documents
cannot fail on the well-typed documents this model ranges over.  A service
whose `name` key is missing or not a string is represented by
`sname = none`.  `currentConfig` stores the submitted document. -/

structure ServiceDoc where
  sname : Option String := none
  monitors : Option (List ProbeDoc) := none
  metrics : Option (List ProbeDoc) := none
deriving DecidableEq, Repr

structure InstanceDoc where
  iname : String := ""
  services : List ServiceDoc := []
deriving DecidableEq, Repr

/-- `func (c *InstanceConfig) Valid(ctx)`: name non-empty, services
non-empty. -/
def instanceProblems (doc : InstanceDoc) : List (String × String) :=
  let p1 := if doc.iname = "" then insertA "name" emptyNameMsg [] else []
  if doc.services = [] then insertA "services" "services cannot be empty" p1 else p1

/-- The whole system the loader drives: both schedulers, the shared entity
repository, and the stored current configuration. -/
structure Sys where
  mon : SchedState
  met : SchedState
  ents : List String
  current : Option InstanceDoc
deriving DecidableEq, Repr

def initSys : Sys := ⟨emptySched, emptySched, [], none⟩

instance : Inhabited Sys := ⟨initSys⟩

/-- Errors escaping `LoadConfig`.  A `ConfigError` (ValidationError or
NoNameError, which implement `PrependPath`) is prepended with the
instance name; a `DuplicateFoundError` does not implement `ConfigError`,
so `errors.As` fails and the loader wraps it in a plain
`fmt.Errorf("failed to load <kind> for service <name>: %w", err)`. -/
inductive LoadErr where
  | cfg (e : CfgError)
  | wrapped (msg : String) (e : CfgError)
deriving DecidableEq, Repr

/-- Error handling after a scheduler `LoadService` call inside
`LoadConfig`. -/
def wrapSchedErr (iname label nm : String) : CfgError → LoadErr
  | .validation path probs => .cfg (.validation (iname ++ "." ++ path) probs)
  | .noName path i => .cfg (.noName (iname ++ "." ++ path) i)
  | .duplicate path =>
    .wrapped ("failed to load " ++ label ++ " for service " ++ nm) (.duplicate path)

inductive LCRes where
  | ok (s : Sys)
  | fail (e : LoadErr) (s : Sys)
  | crash
deriving DecidableEq, Repr

inductive PartRes where
  | ok (st : SchedState) (ents : List String)
  | fail (e : LoadErr)
  | crash
deriving DecidableEq, Repr

/-- One scheduler branch of the per-service body of `LoadConfig`: skip
when the key (`monitors` / `metrics`) is absent, otherwise call
`LoadService` and translate its error. -/
def loadSchedPart (build : EntityID → ProbeDoc → Except CfgError EntityID)
    (iname nm label : String) (part : Option (List ProbeDoc))
    (st : SchedState) (ents : List String) : PartRes :=
  match part with
  | none => .ok st ents
  | some ds =>
    match LoadService build (NewServiceID iname nm) ds st ents with
    | .ok st2 ents2 _ _ => .ok st2 ents2
    | .fail e => .fail (wrapSchedErr iname label nm e)
    | .crash => .crash

/-- The service loop of `LoadConfig` (monitors then metrics per service,
in document order, early return on the first error). -/
def loadSvcs (iname : String) : List ServiceDoc → Nat → Sys → LCRes
  | [], _, sys => .ok sys
  | svc :: rest, i, sys =>
    match svc.sname with
    | none => .fail (.cfg (.noName iname (Int.ofNat i))) sys
    | some nm =>
      match loadSchedPart BuildMonitor iname nm "monitors" svc.monitors sys.mon sys.ents with
      | .crash => .crash
      | .fail e => .fail e sys
      | .ok mon2 ents2 =>
        let sys1 : Sys := ⟨mon2, sys.met, ents2, sys.current⟩
        match loadSchedPart BuildMetric iname nm "metrics" svc.metrics sys1.met sys1.ents with
        | .crash => .crash
        | .fail e => .fail e sys1
        | .ok met2 ents3 => loadSvcs iname rest (i + 1) ⟨sys1.mon, met2, ents3, sys1.current⟩

/-- `Loader.LoadConfig`: parse (modelled away), validate the instance
header, store the document as the current config, then load each service
into both schedulers. -/
def LoadConfig (doc : InstanceDoc) (sys : Sys) : LCRes :=
  if instanceProblems doc ≠ [] then
    .fail (.cfg (.validation doc.iname (instanceProblems doc))) sys
  else
    loadSvcs doc.iname doc.services 0 ⟨sys.mon, sys.met, sys.ents, some doc⟩

/-- `Loader.GetConfig`. -/
def GetConfig (sys : Sys) : Option InstanceDoc := sys.current

/-! ### Claim C7 -/

/-- The system a `LoadConfig` result carries (the crash case never occurs
in the claims below; it defaults to the initial system). -/
def sysOfLC : LCRes → Sys
  | .ok s => s
  | .fail _ s => s
  | .crash => initSys

theorem loadSvcs_current (iname : String) :
    ∀ (svcs : List ServiceDoc) (i : Nat) (sys : Sys),
      (∀ s2, loadSvcs iname svcs i sys = .ok s2 → s2.current = sys.current) ∧
      (∀ e s2, loadSvcs iname svcs i sys = .fail e s2 → s2.current = sys.current) := by
  intro svcs
  induction svcs with
  | nil =>
    intro i sys
    constructor
    · intro s2 h
      simp only [loadSvcs] at h
      cases h
      rfl
    · intro e s2 h
      simp only [loadSvcs] at h
      cases h
  | cons svc rest ih =>
    intro i sys
    constructor
    · intro s2 h
      cases hn : svc.sname with
      | none => simp [loadSvcs, hn] at h
      | some nm =>
        simp only [loadSvcs, hn] at h
        cases h1 : loadSchedPart BuildMonitor iname nm "monitors" svc.monitors
            sys.mon sys.ents with
        | crash => simp [h1] at h
        | fail e => simp [h1] at h
        | ok mon2 ents2 =>
          simp only [h1] at h
          cases h2 : loadSchedPart BuildMetric iname nm "metrics" svc.metrics
              sys.met ents2 with
          | crash => simp [h2] at h
          | fail e => simp [h2] at h
          | ok met2 ents3 =>
            simp only [h2] at h
            exact (ih (i + 1) ⟨mon2, met2, ents3, sys.current⟩).1 s2 h
    · intro e s2 h
      cases hn : svc.sname with
      | none =>
        simp only [loadSvcs, hn] at h
        cases h
        rfl
      | some nm =>
        simp only [loadSvcs, hn] at h
        cases h1 : loadSchedPart BuildMonitor iname nm "monitors" svc.monitors
            sys.mon sys.ents with
        | crash => simp [h1] at h
        | fail e2 =>
          simp only [h1] at h
          cases h
          rfl
        | ok mon2 ents2 =>
          simp only [h1] at h
          cases h2 : loadSchedPart BuildMetric iname nm "metrics" svc.metrics
              sys.met ents2 with
          | crash => simp [h2] at h
          | fail e2 =>
            simp only [h2] at h
            cases h
            rfl
          | ok met2 ents3 =>
            simp only [h2] at h
            exact (ih (i + 1) ⟨mon2, met2, ents3, sys.current⟩).2 e s2 h

/-- C7 (amended).  GetConfig returns the last document accepted by the
instance-level checks: nothing before any load (the API answers 404);
after a successful `LoadConfig(raw)` it returns `raw`; a document that
fails parsing or instance-level validation does not become the value
GetConfig returns — but a document that passes those checks and then
fails at the per-service stage *is* stored (the loader stores the raw
bytes before iterating the services). -/
theorem C7_getconfig_last_applied :
    GetConfig initSys = none ∧
    (∀ doc sys sys2, LoadConfig doc sys = .ok sys2 → GetConfig sys2 = some doc) ∧
    (∀ doc sys e sys2, LoadConfig doc sys = .fail e sys2 →
      (instanceProblems doc ≠ [] → GetConfig sys2 = GetConfig sys) ∧
      (instanceProblems doc = [] → GetConfig sys2 = some doc)) := by
  refine ⟨rfl, ?_, ?_⟩
  · intro doc sys sys2 h
    unfold LoadConfig at h
    by_cases hp : instanceProblems doc ≠ []
    · rw [if_pos hp] at h
      cases h
    · rw [if_neg hp] at h
      exact (loadSvcs_current doc.iname doc.services 0 _).1 sys2 h
  · intro doc sys e sys2 h
    unfold LoadConfig at h
    by_cases hp : instanceProblems doc ≠ []
    · rw [if_pos hp] at h
      cases h
      exact ⟨fun _ => rfl, fun hc => absurd hc hp⟩
    · rw [if_neg hp] at h
      refine ⟨fun hc => absurd hc hp, fun _ => ?_⟩
      exact (loadSvcs_current doc.iname doc.services 0 _).2 e sys2 h

/-- C7 (counterexample to the claim as stated).  A document that parses
and passes instance-level validation but fails at the service stage (here:
a service without a name) *does* become the value GetConfig returns. -/
theorem C7_claim_counterexample :
    LoadConfig ⟨"i", [⟨none, none, none⟩]⟩ initSys =
      .fail (.cfg (.noName "i" 0))
        ⟨emptySched, emptySched, [], some ⟨"i", [⟨none, none, none⟩]⟩⟩ ∧
    GetConfig ⟨emptySched, emptySched, [], some ⟨"i", [⟨none, none, none⟩]⟩⟩ ≠
      GetConfig initSys := by
  constructor
  · rfl
  · decide

/-- Witness for the amended C7. -/
theorem C7_getconfig_last_applied_witness :
    GetConfig (sysOfLC (LoadConfig ⟨"i", [⟨some "s", none, none⟩]⟩ initSys)) =
      some ⟨"i", [⟨some "s", none, none⟩]⟩ ∧
    GetConfig (sysOfLC (LoadConfig ⟨"i", [⟨none, none, none⟩]⟩ initSys)) =
      some ⟨"i", [⟨none, none, none⟩]⟩ :=
  ⟨C7_getconfig_last_applied.2.1 ⟨"i", [⟨some "s", none, none⟩]⟩ initSys _ (by rfl),
   (C7_getconfig_last_applied.2.2 ⟨"i", [⟨none, none, none⟩]⟩ initSys
     (.cfg (.noName "i" 0)) _ (by rfl)).2 (by decide)⟩

/-! ### Claim C6 -/

/-- The index annotation `buildAll` applies to a NoName error
(`nnerr.SetIndex(i)`); other errors pass through unchanged. -/
def idxAnnot (e : CfgError) (i : Nat) : CfgError :=
  match e with
  | .noName p _ => .noName p (Int.ofNat i)
  | e => e

theorem buildAllG_single_error
    (build : EntityID → ProbeDoc → Except CfgError EntityID) (sid : EntityID)
    (d : ProbeDoc) (e : CfgError) (h : build sid d = .error e) :
    buildAllG build sid [d] 0 [] = .error (idxAnnot e 0) := by
  simp only [buildAllG, h]
  cases e <;> rfl

theorem LoadService_single_error
    (build : EntityID → ProbeDoc → Except CfgError EntityID) (sid : EntityID)
    (d : ProbeDoc) (e : CfgError) (st : SchedState) (ents : List String)
    (h : build sid d = .error e) :
    LoadService build sid [d] st ents = .fail (idxAnnot e 0) := by
  unfold LoadService
  rw [buildAllG_single_error build sid d e h]

/-- A single-service, single-monitor document whose monitor fails to build
is rejected by `LoadConfig` with the builder's error wrapped by the
loader. -/
theorem LoadConfig_single_monitor_error
    (iname sname : String) (d : ProbeDoc) (e : CfgError) (sys : Sys)
    (hinst : instanceProblems ⟨iname, [⟨some sname, some [d], none⟩]⟩ = [])
    (h : BuildMonitor (NewServiceID iname sname) d = .error e) :
    LoadConfig ⟨iname, [⟨some sname, some [d], none⟩]⟩ sys =
      .fail (wrapSchedErr iname "monitors" sname (idxAnnot e 0))
        ⟨sys.mon, sys.met, sys.ents,
         some ⟨iname, [⟨some sname, some [d], none⟩]⟩⟩ := by
  unfold LoadConfig
  rw [if_neg (by rw [hinst]; simp)]
  simp only [loadSvcs, loadSchedPart,
    LoadService_single_error BuildMonitor (NewServiceID iname sname) d e _ _ h]

/-- C6 (amended).  Path accumulation through `LoadConfig`:
(a) a common-header validation error (missing type, zero interval) for a
probe named `m` in service `s` under instance `i` accumulates the dotted
path `i.s.m` — the inner layer builds `s.m` and the loader prepends `i`;
(b) a type-specific configuration error raised inside the monitor's
`Configure` (for example a bad URL) carries only the probe name, so the
accumulated path is `i.m`, without the service segment;
(c) a probe entry without a name yields a ValidationError carrying the
problem `name: 'name' is required` with accumulated path `i.s.` (the name
segment empty) — not a NoName error;
(d) a NoName error with the bracketed positional index arises for a
*service* entry lacking a name, and renders `i[k]`. -/
theorem C6_path_accumulation :
    (∀ (iname sname : String) (d : ProbeDoc) (sys : Sys),
      instanceProblems ⟨iname, [⟨some sname, some [d], none⟩]⟩ = [] →
      monitorConfigProblems d ≠ [] →
      LoadConfig ⟨iname, [⟨some sname, some [d], none⟩]⟩ sys =
        .fail (.cfg (.validation (iname ++ "." ++ (sname ++ "." ++ d.pname))
            (monitorConfigProblems d)))
          ⟨sys.mon, sys.met, sys.ents, some ⟨iname, [⟨some sname, some [d], none⟩]⟩⟩) ∧
    (∀ (iname sname : String) (d : ProbeDoc) (sys : Sys),
      instanceProblems ⟨iname, [⟨some sname, some [d], none⟩]⟩ = [] →
      monitorConfigProblems d = [] → d.ptype = "http" → httpProblems d.asHTTP ≠ [] →
      LoadConfig ⟨iname, [⟨some sname, some [d], none⟩]⟩ sys =
        .fail (.cfg (.validation (iname ++ "." ++ d.pname) (httpProblems d.asHTTP)))
          ⟨sys.mon, sys.met, sys.ents, some ⟨iname, [⟨some sname, some [d], none⟩]⟩⟩) ∧
    (∀ d : ProbeDoc, d.pname = "" →
      lookupA "name" (monitorConfigProblems d) = some emptyNameMsg ∧
      ∀ (iname sname : String) (sys : Sys),
        instanceProblems ⟨iname, [⟨some sname, some [d], none⟩]⟩ = [] →
        LoadConfig ⟨iname, [⟨some sname, some [d], none⟩]⟩ sys =
          .fail (.cfg (.validation (iname ++ "." ++ (sname ++ "."))
              (monitorConfigProblems d)))
            ⟨sys.mon, sys.met, sys.ents, some ⟨iname, [⟨some sname, some [d], none⟩]⟩⟩) ∧
    (∀ (iname : String) (rest : List ServiceDoc) (sys : Sys),
      instanceProblems ⟨iname, ⟨none, none, none⟩ :: rest⟩ = [] →
      LoadConfig ⟨iname, ⟨none, none, none⟩ :: rest⟩ sys =
        .fail (.cfg (.noName iname 0))
          ⟨sys.mon, sys.met, sys.ents, some ⟨iname, ⟨none, none, none⟩ :: rest⟩⟩) ∧
    (∀ (p : String) (k : Int), 0 ≤ k →
      noNameErrorPath p k = p ++ "[" ++ toString k ++ "]") := by
  refine ⟨?_, ?_, ?_, ?_, ?_⟩
  · intro iname sname d sys hinst hp
    have hb : BuildMonitor (NewServiceID iname sname) d =
        .error (.validation (pathJoin [svcNameOf (NewServiceID iname sname), d.pname])
          (monitorConfigProblems d)) := by
      unfold BuildMonitor
      rw [if_pos hp]
    have := LoadConfig_single_monitor_error iname sname d _ sys hinst hb
    rw [this]
    rfl
  · intro iname sname d sys hinst hhd htype hps
    have hb : BuildMonitor (NewServiceID iname sname) d =
        .error (.validation d.pname (httpProblems d.asHTTP)) := by
      unfold BuildMonitor
      rw [if_neg (fun hc => hc hhd), htype]
      show (if httpProblems d.asHTTP ≠ [] then
          Except.error (CfgError.validation (pathJoin [labelOf (NewMonitorIDFromServiceID
            (NewServiceID iname sname) "http" d.pname) "name"])
            (httpProblems d.asHTTP))
        else Except.ok (NewMonitorIDFromServiceID (NewServiceID iname sname) "http" d.pname)) =
        Except.error (CfgError.validation d.pname (httpProblems d.asHTTP))
      rw [if_pos hps]
      rfl
    have := LoadConfig_single_monitor_error iname sname d _ sys hinst hb
    rw [this]
    rfl
  · intro d hname
    have hlook : lookupA "name" (monitorConfigProblems d) = some emptyNameMsg := by
      unfold monitorConfigProblems
      rw [if_pos hname]
      split_ifs <;> simp [lookupA_insertA_ne, lookupA_insertA_self]
    refine ⟨hlook, ?_⟩
    intro iname sname sys hinst
    have hp : monitorConfigProblems d ≠ [] := by
      intro hc
      rw [hc] at hlook
      simp [lookupA] at hlook
    have hb : BuildMonitor (NewServiceID iname sname) d =
        .error (.validation (pathJoin [svcNameOf (NewServiceID iname sname), d.pname])
          (monitorConfigProblems d)) := by
      unfold BuildMonitor
      rw [if_pos hp]
    have := LoadConfig_single_monitor_error iname sname d _ sys hinst hb
    rw [this]
    have hpath : pathJoin [svcNameOf (NewServiceID iname sname), d.pname] =
        sname ++ "." := by
      rw [hname]
      show sname ++ "." ++ "" = sname ++ "."
      exact String.append_empty _
    rw [show (idxAnnot (.validation
      (pathJoin [svcNameOf (NewServiceID iname sname), d.pname])
      (monitorConfigProblems d)) 0) =
      (.validation (sname ++ ".") (monitorConfigProblems d)) from by rw [hpath]; rfl]
    rfl
  · intro iname rest sys hinst
    unfold LoadConfig
    rw [if_neg (by rw [hinst]; simp)]
    simp only [loadSvcs]
    rfl
  · intro p k hk
    unfold noNameErrorPath
    rw [if_pos hk]

/-- C6 counterexample.  An HTTP monitor named `m` with an invalid URL in
a service named `s` of instance `i` is rejected by `LoadConfig` with the
accumulated path `i.m` — the service segment claimed by the spec is
missing, because `HTTPMonitor.Configure` builds its ValidationError from
the monitor name alone. -/
theorem C6_claim_counterexample :
    LoadConfig ⟨"i", [⟨some "s",
        some [{ ptype := "http", pname := "m", interval := 60, url := "bad" }],
        none⟩]⟩ initSys =
      .fail (.cfg (.validation "i.m"
          [("url", "url must start with http:// or https://")]))
        ⟨initSys.mon, initSys.met, initSys.ents,
         some ⟨"i", [⟨some "s",
           some [{ ptype := "http", pname := "m", interval := 60, url := "bad" }],
           none⟩]⟩⟩ ∧
    "i.m" ≠ "i.s.m" := by
  exact ⟨rfl, by decide⟩

/-- Witness instantiating `C6_path_accumulation` at concrete inputs. -/
theorem C6_path_accumulation_witness :
    (LoadConfig ⟨"i", [⟨some "s",
        some [{ ptype := "http", pname := "m", interval := 0, url := "bad" }],
        none⟩]⟩ initSys =
      .fail (.cfg (.validation ("i" ++ "." ++ ("s" ++ "." ++ "m"))
          (monitorConfigProblems
            { ptype := "http", pname := "m", interval := 0, url := "bad" })))
        ⟨initSys.mon, initSys.met, initSys.ents,
         some ⟨"i", [⟨some "s",
           some [{ ptype := "http", pname := "m", interval := 0, url := "bad" }],
           none⟩]⟩⟩) ∧
    (LoadConfig ⟨"i", [⟨some "s",
        some [{ ptype := "http", pname := "m", interval := 60, url := "bad" }],
        none⟩]⟩ initSys =
      .fail (.cfg (.validation ("i" ++ "." ++ "m")
          (httpProblems (ProbeDoc.asHTTP
            { ptype := "http", pname := "m", interval := 60, url := "bad" }))))
        ⟨initSys.mon, initSys.met, initSys.ents,
         some ⟨"i", [⟨some "s",
           some [{ ptype := "http", pname := "m", interval := 60, url := "bad" }],
           none⟩]⟩⟩) ∧
    (lookupA "name" (monitorConfigProblems
        { ptype := "http", pname := "", interval := 60 }) = some emptyNameMsg ∧
      LoadConfig ⟨"i", [⟨some "s",
          some [{ ptype := "http", pname := "", interval := 60 }], none⟩]⟩ initSys =
        .fail (.cfg (.validation ("i" ++ "." ++ ("s" ++ "."))
            (monitorConfigProblems
              { ptype := "http", pname := "", interval := 60 })))
          ⟨initSys.mon, initSys.met, initSys.ents,
           some ⟨"i", [⟨some "s",
             some [{ ptype := "http", pname := "", interval := 60 }], none⟩]⟩⟩) ∧
    (LoadConfig ⟨"i", [⟨none, none, none⟩]⟩ initSys =
      .fail (.cfg (.noName "i" 0))
        ⟨initSys.mon, initSys.met, initSys.ents,
         some ⟨"i", [⟨none, none, none⟩]⟩⟩) ∧
    noNameErrorPath "i" 0 = "i" ++ "[" ++ toString (0 : Int) ++ "]" := by
  have h := C6_path_accumulation
  refine ⟨?_, ?_, ?_, ?_, ?_⟩
  · exact h.1 "i" "s" _ initSys (by decide) (by decide)
  · exact h.2.1 "i" "s" _ initSys (by decide) (by decide) (by decide) (by decide)
  · have h3 := h.2.2.1 { ptype := "http", pname := "", interval := 60 } (by decide)
    exact ⟨h3.1, h3.2 "i" "s" initSys (by decide)⟩
  · exact h.2.2.2.1 "i" [] initSys (by decide)
  · exact h.2.2.2.2 "i" 0 (by decide)

/-! ### Claim C1: derivable and running probe sets -/

/-- The canonical IDs of the probes currently present and running in a
scheduler. -/
def runningKeys (st : SchedState) : List String :=
  (st.probes.filter (fun p => p.2.running)).map Prod.fst

/-- The probe map produced by `buildAll` on success, `[]` on an error. -/
def builtProbes (build : EntityID → ProbeDoc → Except CfgError EntityID)
    (sid : EntityID) (ds : List ProbeDoc) : List (String × Inst) :=
  match buildAllG build sid ds 0 [] with
  | .ok np => np
  | .error _ => []

/-- The desired monitor instances of one service document. -/
def monNew (iname : String) (svc : ServiceDoc) : List (String × Inst) :=
  match svc.sname, svc.monitors with
  | some nm, some ds => builtProbes BuildMonitor (NewServiceID iname nm) ds
  | _, _ => []

/-- The desired metric instances of one service document. -/
def metNew (iname : String) (svc : ServiceDoc) : List (String × Inst) :=
  match svc.sname, svc.metrics with
  | some nm, some ds => builtProbes BuildMetric (NewServiceID iname nm) ds
  | _, _ => []

/-- Mark every instance of a desired map as started. -/
def runUp (l : List (String × Inst)) : List (String × Inst) :=
  l.map (fun p => (p.1, { p.2 with running := true }))

/-- All monitor instances a service list installs, running, in load
order. -/
def monNewAll (iname : String) : List ServiceDoc → List (String × Inst)
  | [] => []
  | svc :: rest => runUp (monNew iname svc) ++ monNewAll iname rest

/-- All metric instances a service list installs, running, in load
order. -/
def metNewAll (iname : String) : List ServiceDoc → List (String × Inst)
  | [] => []
  | svc :: rest => runUp (metNew iname svc) ++ metNewAll iname rest

/-- The monitor canonical IDs one service document prescribes. -/
def monDeriv1 (iname : String) (svc : ServiceDoc) : List String :=
  match svc.sname, svc.monitors with
  | some nm, some ds =>
    ds.map (fun d => (probeIdOf "monitor" (NewServiceID iname nm) d).Canonical)
  | _, _ => []

/-- The metric canonical IDs one service document prescribes. -/
def metDeriv1 (iname : String) (svc : ServiceDoc) : List String :=
  match svc.sname, svc.metrics with
  | some nm, some ds =>
    ds.map (fun d => (probeIdOf "metric" (NewServiceID iname nm) d).Canonical)
  | _, _ => []

/-- The monitor canonical IDs a configuration document prescribes. -/
def monDerivable (doc : InstanceDoc) : List String :=
  doc.services.foldr (fun svc acc => monDeriv1 doc.iname svc ++ acc) []

/-- The metric canonical IDs a configuration document prescribes. -/
def metDerivable (doc : InstanceDoc) : List String :=
  doc.services.foldr (fun svc acc => metDeriv1 doc.iname svc ++ acc) []

/-- Cleanliness of one service document: its name, probe types and probe
names are free of the ID separator and `=`. -/
def svcClean (svc : ServiceDoc) : Prop :=
  cleanStr (svc.sname.getD "") ∧
  (∀ d ∈ svc.monitors.getD [], cleanStr d.ptype ∧ cleanStr d.pname) ∧
  (∀ d ∈ svc.metrics.getD [], cleanStr d.ptype ∧ cleanStr d.pname)

instance (svc : ServiceDoc) : Decidable (svcClean svc) := by
  unfold svcClean; infer_instance

/-- Cleanliness of a whole document, plus pairwise-distinct service
names. -/
def cleanDoc (doc : InstanceDoc) : Prop :=
  cleanStr doc.iname ∧ (∀ svc ∈ doc.services, svcClean svc) ∧
  (doc.services.filterMap ServiceDoc.sname).Nodup

instance (doc : InstanceDoc) : Decidable (cleanDoc doc) := by
  unfold cleanDoc; infer_instance

theorem keysOf_append {α : Type} (a b : List (String × α)) :
    keysOf (a ++ b) = keysOf a ++ keysOf b := by
  unfold keysOf
  exact List.map_append _ a b

theorem lookupA_append_none {α : Type} (k : String) (a b : List (String × α))
    (ha : lookupA k a = none) (hb : lookupA k b = none) :
    lookupA k (a ++ b) = none := by
  rw [lookupA_eq_none_iff_not_mem] at ha hb ⊢
  rw [keysOf_append]
  intro h
  rcases List.mem_append.mp h with h | h
  · exact ha h
  · exact hb h

theorem keysOf_runUp (l : List (String × Inst)) : keysOf (runUp l) = keysOf l := by
  unfold keysOf runUp
  rw [List.map_map]
  rfl

theorem runUp_running : ∀ p ∈ runUp l, p.2.running = true := by
  intro p hp
  unfold runUp at hp
  obtain ⟨q, _, hq⟩ := List.mem_map.mp hp
  rw [← hq]

theorem runningKeys_all_running (probes : List (String × Inst))
    (h : ∀ p ∈ probes, p.2.running = true) :
    runningKeys ⟨probes, svcs⟩ = keysOf probes := by
  unfold runningKeys keysOf
  simp only []
  rw [List.filter_eq_self.mpr (fun p hp => by simp [h p hp])]

theorem monNewAll_running (iname : String) :
    ∀ svcs, ∀ p ∈ monNewAll iname svcs, p.2.running = true := by
  intro svcs
  induction svcs with
  | nil => intro p hp; simp [monNewAll] at hp
  | cons svc rest ih =>
    intro p hp
    rcases List.mem_append.mp hp with h | h
    · exact runUp_running p h
    · exact ih p h

theorem metNewAll_running (iname : String) :
    ∀ svcs, ∀ p ∈ metNewAll iname svcs, p.2.running = true := by
  intro svcs
  induction svcs with
  | nil => intro p hp; simp [metNewAll] at hp
  | cons svc rest ih =>
    intro p hp
    rcases List.mem_append.mp hp with h | h
    · exact runUp_running p h
    · exact ih p h

/-- On a successful build, the keys of the produced map are the canonical
IDs of the documents, in order, appended to the accumulator keys. -/
theorem buildAllG_ok_keys (build : EntityID → ProbeDoc → Except CfgError EntityID)
    (kind : String)
    (hshape : ∀ s d id, build s d = .ok id → id = probeIdOf kind s d)
    (sid : EntityID) :
    ∀ (ds : List ProbeDoc) (i : Nat) (acc m : List (String × Inst)),
      buildAllG build sid ds i acc = .ok m →
      keysOf m = keysOf acc ++ ds.map (fun d => (probeIdOf kind sid d).Canonical) := by
  intro ds
  induction ds with
  | nil =>
    intro i acc m h
    simp only [buildAllG] at h
    cases h
    simp
  | cons d rest ih =>
    intro i acc m h
    simp only [buildAllG] at h
    cases hb : build sid d with
    | error e => rw [hb] at h; cases e <;> simp at h
    | ok id =>
      rw [hb] at h
      by_cases hdup : (lookupA id.Canonical acc).isSome
      · simp [hdup] at h
      · simp only [hdup, if_false, Bool.false_eq_true] at h
        rw [ih (i + 1) _ m h, keysOf_append]
        have hid : id = probeIdOf kind sid d := hshape sid d id hb
        simp [keysOf, hid]

theorem buildAllG_keys_owner (build : EntityID → ProbeDoc → Except CfgError EntityID)
    (kind : String)
    (hshape : ∀ s d id, build s d = .ok id → id = probeIdOf kind s d)
    (hkind : cleanStr kind) (A S : String) (hA : cleanStr A) (hS : cleanStr S)
    (docs : List ProbeDoc) (hdocs : ∀ d ∈ docs, cleanStr d.ptype ∧ cleanStr d.pname)
    (np : List (String × Inst))
    (hb : buildAllG build (NewServiceID A S) docs 0 [] = .ok np) :
    ∀ c ∈ keysOf np, ownerOf c = (some A, some S) := by
  intro c hc
  obtain ⟨v, hv⟩ := (mem_keysOf_iff c np).mp hc
  rcases buildAllG_ok_mem build (NewServiceID A S) docs 0 [] np hb (c, v) hv with
    h | ⟨d, hd, hbd, hcan, _⟩
  · simp at h
  · have hid := hshape _ d v.id hbd
    have hcan2 : c = v.id.Canonical := hcan
    rw [hcan2, hid]
    unfold probeIdOf
    simp only [labelOf_NewServiceID_instance, labelOf_NewServiceID_name]
    exact ownerOf_probeId kind A S d.ptype d.pname hkind hA hS
      (hdocs d hd).1 (hdocs d hd).2

theorem parse_NewServiceID_name (A S : String) (hA : cleanStr A) (hS : cleanStr S) :
    lookupA "name" (ParseEntityID (NewServiceID A S).Canonical).Labels = some S := by
  have hc : cleanID (NewServiceID A S) := by
    refine ⟨show cleanStr "service" by decide,
      show (["instance", "name"] : List String).Nodup by decide, ?_⟩
    intro p hp
    simp only [NewServiceID, List.mem_cons, List.not_mem_nil, or_false] at hp
    rcases hp with rfl | rfl
    · exact ⟨show cleanStr "instance" by decide,
        show "instance" ≠ "kind" by decide, hA⟩
    · exact ⟨show cleanStr "name" by decide, show "name" ≠ "kind" by decide, hS⟩
  have h := parse_canonical_clean _ hc
  rw [h.2 "name"]
  rfl

theorem NewServiceID_canonical_ne (A S1 S2 : String) (hA : cleanStr A)
    (hS1 : cleanStr S1) (hS2 : cleanStr S2) (hne : S1 ≠ S2) :
    (NewServiceID A S1).Canonical ≠ (NewServiceID A S2).Canonical := by
  intro h
  have h1 := parse_NewServiceID_name A S1 hA hS1
  have h2 := parse_NewServiceID_name A S2 hA hS2
  rw [h] at h1
  rw [h2] at h1
  exact hne (Option.some.inj h1).symm

theorem monDeriv1_owner (iname : String) (hin : cleanStr iname) (svc : ServiceDoc)
    (hclean : svcClean svc) (nm : String) (hnm : svc.sname = some nm) :
    ∀ c ∈ monDeriv1 iname svc, ownerOf c = (some iname, some nm) := by
  intro c hc
  unfold monDeriv1 at hc
  rw [hnm] at hc
  cases hmon : svc.monitors with
  | none => rw [hmon] at hc; simp at hc
  | some ds =>
    rw [hmon] at hc
    simp only [] at hc
    obtain ⟨d, hd, hdc⟩ := List.mem_map.mp hc
    rw [← hdc]
    unfold probeIdOf
    simp only [labelOf_NewServiceID_instance, labelOf_NewServiceID_name]
    have hds := hclean.2.1 d (by rw [hmon]; exact hd)
    have hnmcl : cleanStr nm := by
      have h0 := hclean.1
      rw [hnm] at h0
      exact h0
    exact ownerOf_probeId "monitor" iname nm d.ptype d.pname (by decide) hin hnmcl
      hds.1 hds.2

theorem metDeriv1_owner (iname : String) (hin : cleanStr iname) (svc : ServiceDoc)
    (hclean : svcClean svc) (nm : String) (hnm : svc.sname = some nm) :
    ∀ c ∈ metDeriv1 iname svc, ownerOf c = (some iname, some nm) := by
  intro c hc
  unfold metDeriv1 at hc
  rw [hnm] at hc
  cases hmet : svc.metrics with
  | none => rw [hmet] at hc; simp at hc
  | some ds =>
    rw [hmet] at hc
    simp only [] at hc
    obtain ⟨d, hd, hdc⟩ := List.mem_map.mp hc
    rw [← hdc]
    unfold probeIdOf
    simp only [labelOf_NewServiceID_instance, labelOf_NewServiceID_name]
    have hds := hclean.2.2 d (by rw [hmet]; exact hd)
    have hnmcl : cleanStr nm := by
      have h0 := hclean.1
      rw [hnm] at h0
      exact h0
    exact ownerOf_probeId "metric" iname nm d.ptype d.pname (by decide) hin hnmcl
      hds.1 hds.2

theorem monNew_keys (iname : String) (svc : ServiceDoc) (nm : String)
    (ds : List ProbeDoc) (hnm : svc.sname = some nm) (hds : svc.monitors = some ds)
    (np : List (String × Inst))
    (hb : buildAllG BuildMonitor (NewServiceID iname nm) ds 0 [] = .ok np) :
    monNew iname svc = np ∧ keysOf np = monDeriv1 iname svc := by
  constructor
  · unfold monNew
    rw [hnm, hds]
    simp only []
    unfold builtProbes
    rw [hb]
  · rw [buildAllG_ok_keys BuildMonitor "monitor" BuildMonitor_shape _ ds 0 [] np hb]
    unfold monDeriv1
    rw [hnm, hds]
    simp [keysOf]

theorem metNew_keys (iname : String) (svc : ServiceDoc) (nm : String)
    (ds : List ProbeDoc) (hnm : svc.sname = some nm) (hds : svc.metrics = some ds)
    (np : List (String × Inst))
    (hb : buildAllG BuildMetric (NewServiceID iname nm) ds 0 [] = .ok np) :
    metNew iname svc = np ∧ keysOf np = metDeriv1 iname svc := by
  constructor
  · unfold metNew
    rw [hnm, hds]
    simp only []
    unfold builtProbes
    rw [hb]
  · rw [buildAllG_ok_keys BuildMetric "metric" BuildMetric_shape _ ds 0 [] np hb]
    unfold metDeriv1
    rw [hnm, hds]
    simp [keysOf]

/-- The desired instances of one scheduler part (`monitors` or `metrics`)
of a service document. -/
def partNew (build : EntityID → ProbeDoc → Except CfgError EntityID)
    (sid : EntityID) : Option (List ProbeDoc) → List (String × Inst)
  | none => []
  | some ds => builtProbes build sid ds

/-- The canonical IDs one scheduler part of a service document
prescribes. -/
def partDeriv (kind : String) (sid : EntityID) :
    Option (List ProbeDoc) → List String
  | none => []
  | some ds => ds.map (fun d => (probeIdOf kind sid d).Canonical)

theorem monNew_eq_partNew (iname : String) (svc : ServiceDoc) (nm : String)
    (hnm : svc.sname = some nm) :
    monNew iname svc = partNew BuildMonitor (NewServiceID iname nm) svc.monitors := by
  unfold monNew partNew
  rw [hnm]
  cases svc.monitors <;> rfl

theorem metNew_eq_partNew (iname : String) (svc : ServiceDoc) (nm : String)
    (hnm : svc.sname = some nm) :
    metNew iname svc = partNew BuildMetric (NewServiceID iname nm) svc.metrics := by
  unfold metNew partNew
  rw [hnm]
  cases svc.metrics <;> rfl

theorem monDeriv1_eq_partDeriv (iname : String) (svc : ServiceDoc) (nm : String)
    (hnm : svc.sname = some nm) :
    monDeriv1 iname svc = partDeriv "monitor" (NewServiceID iname nm) svc.monitors := by
  unfold monDeriv1 partDeriv
  rw [hnm]
  cases svc.monitors <;> rfl

theorem metDeriv1_eq_partDeriv (iname : String) (svc : ServiceDoc) (nm : String)
    (hnm : svc.sname = some nm) :
    metDeriv1 iname svc = partDeriv "metric" (NewServiceID iname nm) svc.metrics := by
  unfold metDeriv1 partDeriv
  rw [hnm]
  cases svc.metrics <;> rfl

/-- Inversion of one successful `loadSchedPart` call against a state that
does not yet hold the service or any of its prescribed probe IDs. -/
theorem loadSchedPart_fresh_inv
    (build : EntityID → ProbeDoc → Except CfgError EntityID) (kind : String)
    (hshape : ∀ s d id, build s d = .ok id → id = probeIdOf kind s d)
    (iname nm label : String)
    (part : Option (List ProbeDoc))
    (st : SchedState) (ents : List String) (st2 : SchedState) (ents2 : List String)
    (hok : loadSchedPart build iname nm label part st ents = .ok st2 ents2)
    (hentry : lookupA (NewServiceID iname nm).Canonical st.services = none)
    (habsent : ∀ c ∈ partDeriv kind (NewServiceID iname nm) part,
      lookupA c st.probes = none) :
    st2.probes = st.probes ++ runUp (partNew build (NewServiceID iname nm) part) ∧
    (∀ sc, sc ≠ (NewServiceID iname nm).Canonical →
      lookupA sc st2.services = lookupA sc st.services) ∧
    (∀ ds, part = some ds →
      buildAllG build (NewServiceID iname nm) ds 0 [] =
        .ok (partNew build (NewServiceID iname nm) part) ∧
      lookupA (NewServiceID iname nm).Canonical st2.services =
        some (keysOf (partNew build (NewServiceID iname nm) part))) ∧
    (part = none → st2 = st ∧ ents2 = ents) ∧
    (∀ c ∈ ents, c ∈ ents2) ∧
    (∀ c ∈ keysOf (partNew build (NewServiceID iname nm) part), c ∈ ents2) := by
  cases part with
  | none =>
    simp only [loadSchedPart] at hok
    obtain ⟨h1, h2⟩ : st = st2 ∧ ents = ents2 := by
      cases hok
      exact ⟨rfl, rfl⟩
    subst h1
    subst h2
    refine ⟨by simp [partNew, runUp], fun sc h => rfl, ?_, fun h => ⟨rfl, rfl⟩,
      fun c hc => hc, ?_⟩
    · intro ds h
      cases h
    · intro c hc
      simp [partNew, keysOf] at hc
  | some ds =>
    simp only [loadSchedPart] at hok
    cases hb : buildAllG build (NewServiceID iname nm) ds 0 [] with
    | error e =>
      have hls : LoadService build (NewServiceID iname nm) ds st ents = .fail e := by
        unfold LoadService
        rw [hb]
      rw [hls] at hok
      cases hok
    | ok np =>
      have hnd := buildAllG_ok_nodup build (NewServiceID iname nm) ds 0 [] np hb
        (by simp [keysOf])
      have hkeys := buildAllG_ok_keys build kind hshape (NewServiceID iname nm)
        ds 0 [] np hb
      have hkeys2 : keysOf np = partDeriv kind (NewServiceID iname nm) (some ds) := by
        rw [hkeys]
        rfl
      have habs : ∀ c ∈ keysOf np, lookupA c st.probes = none := by
        intro c hc
        apply habsent
        rw [← hkeys2]
        exact hc
      have hls := LoadService_fresh build (NewServiceID iname nm) ds st ents np
        hb hnd hentry habs
      rw [hls] at hok
      have hpn : partNew build (NewServiceID iname nm) (some ds) = np := by
        simp only [partNew, builtProbes, hb]
      obtain ⟨h1, h2⟩ :
          (⟨st.probes ++ np.map (fun p => (p.1, { p.2 with running := true })),
            insertA (NewServiceID iname nm).Canonical (keysOf np) st.services⟩ :
            SchedState) = st2 ∧
          (registerAll (keysOf np) ents).1 = ents2 := by
        cases hok
        exact ⟨rfl, rfl⟩
      subst h2
      refine ⟨?_, ?_, ?_, ?_, ?_, ?_⟩
      · rw [← h1, hpn]
        rfl
      · intro sc hsc
        rw [← h1]
        exact lookupA_insertA_ne _ _ _ _ hsc
      · intro ds2 hds2
        cases hds2
        refine ⟨by rw [hpn]; exact hb, ?_⟩
        rw [← h1, hpn]
        exact lookupA_insertA_self _ _ _
      · intro h
        cases h
      · intro c hc
        exact ((regGo_foldl_spec (keysOf np) (ents, [])).1 c hc)
      · intro c hc
        rw [hpn] at hc
        exact ((regGo_foldl_spec (keysOf np) (ents, [])).2.1 c hc)

theorem lookupA_append_left_some {α : Type} (k : String) (v : α)
    (a b : List (String × α)) (ha : lookupA k a = some v) :
    lookupA k (a ++ b) = some v := by
  induction a with
  | nil => simp [lookupA] at ha
  | cons p t ihh =>
    obtain ⟨k1, v1⟩ := p
    by_cases h : k1 = k
    · subst h
      simp only [lookupA, if_pos rfl] at ha
      simp only [List.cons_append, lookupA, if_pos rfl]
      exact ha
    · simp only [lookupA, if_neg h] at ha
      simp only [List.cons_append, lookupA, if_neg h]
      exact ihh ha

theorem lookupA_append_left_none {α : Type} (k : String)
    (a b : List (String × α)) (ha : lookupA k a = none) :
    lookupA k (a ++ b) = lookupA k b := by
  induction a with
  | nil => rfl
  | cons p t ihh =>
    obtain ⟨k1, v1⟩ := p
    by_cases h : k1 = k
    · simp only [lookupA, if_pos h] at ha
      cases ha
    · simp only [lookupA, if_neg h] at ha
      simp only [List.cons_append, lookupA, if_neg h]
      exact ihh ha

theorem lookupA_of_mem_nodup {α : Type} (k : String) (v : α) :
    ∀ l : List (String × α), (keysOf l).Nodup → (k, v) ∈ l →
      lookupA k l = some v := by
  intro l
  induction l with
  | nil =>
    intro _ h
    simp at h
  | cons p t ihh =>
    intro hnd h
    obtain ⟨k1, v1⟩ := p
    simp only [keysOf, List.map_cons, List.nodup_cons] at hnd
    rcases List.mem_cons.mp h with h1 | h1
    · obtain ⟨hk, hv⟩ := Prod.mk.injEq .. ▸ h1
      subst hk
      subst hv
      simp [lookupA]
    · have hk1 : k1 ≠ k := by
        intro hcon
        subst hcon
        exact hnd.1 ((mem_keysOf_iff _ _).mpr ⟨v, h1⟩)
      simp only [lookupA, if_neg hk1]
      exact ihh (by simpa [keysOf] using hnd.2) h1

theorem lookupA_runUp (np : List (String × Inst)) (hnd : (keysOf np).Nodup)
    (p : String × Inst) (hp : p ∈ np) :
    lookupA p.1 (runUp np) = some { p.2 with running := true } := by
  apply lookupA_of_mem_nodup
  · rw [keysOf_runUp]
    exact hnd
  · unfold runUp
    exact List.mem_map.mpr ⟨p, hp, rfl⟩

/-- Freshness of one service document relative to a system: neither its
service entry nor any of its prescribed probe IDs is present in the
corresponding scheduler yet. -/
def svcFresh (iname : String) (sys : Sys) (svc : ServiceDoc) : Prop :=
  ∀ nm, svc.sname = some nm →
    lookupA (NewServiceID iname nm).Canonical sys.mon.services = none ∧
    lookupA (NewServiceID iname nm).Canonical sys.met.services = none ∧
    (∀ c ∈ monDeriv1 iname svc, lookupA c sys.mon.probes = none) ∧
    (∀ c ∈ metDeriv1 iname svc, lookupA c sys.met.probes = none)

/-- The exact effect of a successful `loadSvcs` run over services that are
all fresh, clean and distinctly named: the new instances are appended,
running; each touched service entry maps to its key set; every new ID is
registered in the entity set; everything else is untouched. -/
theorem loadSvcs_fresh_spec (iname : String) (hin : cleanStr iname) :
    ∀ (svcs : List ServiceDoc) (i : Nat) (sys sys1 : Sys),
      loadSvcs iname svcs i sys = .ok sys1 →
      (∀ svc ∈ svcs, svcClean svc) →
      (svcs.filterMap ServiceDoc.sname).Nodup →
      (∀ svc ∈ svcs, svcFresh iname sys svc) →
      sys1.mon.probes = sys.mon.probes ++ monNewAll iname svcs ∧
      sys1.met.probes = sys.met.probes ++ metNewAll iname svcs ∧
      (∀ sc, (∀ nm ∈ svcs.filterMap ServiceDoc.sname,
          sc ≠ (NewServiceID iname nm).Canonical) →
        lookupA sc sys1.mon.services = lookupA sc sys.mon.services ∧
        lookupA sc sys1.met.services = lookupA sc sys.met.services) ∧
      (∀ svc ∈ svcs, ∀ nm, svc.sname = some nm →
        (∀ ds, svc.monitors = some ds →
          buildAllG BuildMonitor (NewServiceID iname nm) ds 0 [] =
            .ok (monNew iname svc) ∧
          lookupA (NewServiceID iname nm).Canonical sys1.mon.services =
            some (keysOf (monNew iname svc))) ∧
        (∀ ds, svc.metrics = some ds →
          buildAllG BuildMetric (NewServiceID iname nm) ds 0 [] =
            .ok (metNew iname svc) ∧
          lookupA (NewServiceID iname nm).Canonical sys1.met.services =
            some (keysOf (metNew iname svc)))) ∧
      (∀ c ∈ sys.ents, c ∈ sys1.ents) ∧
      (∀ svc ∈ svcs, ∀ c,
        c ∈ keysOf (monNew iname svc) ∨ c ∈ keysOf (metNew iname svc) →
        c ∈ sys1.ents) ∧
      (∀ svc ∈ svcs, ∀ p ∈ monNew iname svc,
        lookupA p.1 sys1.mon.probes = some { p.2 with running := true }) ∧
      (∀ svc ∈ svcs, ∀ p ∈ metNew iname svc,
        lookupA p.1 sys1.met.probes = some { p.2 with running := true }) ∧
      sys1.current = sys.current := by
  intro svcs
  induction svcs with
  | nil =>
    intro i sys sys1 hok hclean hnd hfresh
    simp only [loadSvcs] at hok
    cases hok
    refine ⟨by simp [monNewAll], by simp [metNewAll], fun sc h => ⟨rfl, rfl⟩,
      ?_, fun c hc => hc, ?_, ?_, ?_, rfl⟩
    · intro svc hsvc
      simp at hsvc
    · intro svc hsvc
      simp at hsvc
    · intro svc hsvc
      simp at hsvc
    · intro svc hsvc
      simp at hsvc
  | cons svc rest ih =>
    intro i sys sys1 hok hclean hnd hfresh
    have hclh := hclean svc (List.mem_cons_self _ _)
    have hclr : ∀ s ∈ rest, svcClean s :=
      fun s hs => hclean s (List.mem_cons_of_mem _ hs)
    have hfrr : ∀ s ∈ rest, svcFresh iname sys s :=
      fun s hs => hfresh s (List.mem_cons_of_mem _ hs)
    cases hn : svc.sname with
    | none =>
      simp only [loadSvcs, hn] at hok
      cases hok
    | some nm =>
      have hnmcl : cleanStr nm := by
        have h0 := hclh.1
        rw [hn] at h0
        exact h0
      simp only [List.filterMap_cons, hn] at hnd
      have hndr := List.nodup_cons.mp hnd
      obtain ⟨hfr1, hfr2, hfr3, hfr4⟩ := hfresh svc (List.mem_cons_self _ _) nm hn
      have hrestcl : ∀ nm2 ∈ rest.filterMap ServiceDoc.sname, cleanStr nm2 := by
        intro nm2 hm
        obtain ⟨s, hs, hsn⟩ := List.mem_filterMap.mp hm
        have h0 := (hclr s hs).1
        rw [hsn] at h0
        exact h0
      have hheadne : ∀ nm2 ∈ rest.filterMap ServiceDoc.sname,
          (NewServiceID iname nm).Canonical ≠ (NewServiceID iname nm2).Canonical := by
        intro nm2 hm
        refine NewServiceID_canonical_ne iname nm nm2 hin hnmcl (hrestcl nm2 hm) ?_
        intro hcon
        apply hndr.1
        rw [hcon]
        exact hm
      simp only [loadSvcs, hn] at hok
      cases hmp : loadSchedPart BuildMonitor iname nm "monitors" svc.monitors
          sys.mon sys.ents with
      | crash =>
        simp only [hmp] at hok
        cases hok
      | fail e =>
        simp only [hmp] at hok
        cases hok
      | ok mon2 ents2 =>
        simp only [hmp] at hok
        have hmonfresh : ∀ c ∈ partDeriv "monitor" (NewServiceID iname nm)
            svc.monitors, lookupA c sys.mon.probes = none := by
          intro c hc
          apply hfr3
          rw [monDeriv1_eq_partDeriv iname svc nm hn]
          exact hc
        obtain ⟨hm1, hm2, hm3, hm4, hm5, hm6⟩ :=
          loadSchedPart_fresh_inv BuildMonitor "monitor" BuildMonitor_shape iname nm
            "monitors" svc.monitors sys.mon sys.ents mon2 ents2 hmp hfr1 hmonfresh
        cases hep : loadSchedPart BuildMetric iname nm "metrics" svc.metrics
            sys.met ents2 with
        | crash =>
          simp only [hep] at hok
          cases hok
        | fail e =>
          simp only [hep] at hok
          cases hok
        | ok met2 ents3 =>
          simp only [hep] at hok
          have hmetfresh : ∀ c ∈ partDeriv "metric" (NewServiceID iname nm)
              svc.metrics, lookupA c sys.met.probes = none := by
            intro c hc
            apply hfr4
            rw [metDeriv1_eq_partDeriv iname svc nm hn]
            exact hc
          obtain ⟨he1, he2, he3, he4, he5, he6⟩ :=
            loadSchedPart_fresh_inv BuildMetric "metric" BuildMetric_shape iname nm
              "metrics" svc.metrics sys.met ents2 met2 ents3 hep hfr2 hmetfresh
          have hkeysmon : ∀ ds, svc.monitors = some ds →
              keysOf (partNew BuildMonitor (NewServiceID iname nm) svc.monitors) =
                monDeriv1 iname svc := by
            intro ds hds
            have hb := (hm3 ds hds).1
            rw [hds] at hb
            rw [hds]
            rw [buildAllG_ok_keys BuildMonitor "monitor" BuildMonitor_shape
              (NewServiceID iname nm) ds 0 [] _ hb]
            rw [monDeriv1_eq_partDeriv iname svc nm hn, hds]
            simp [partDeriv, keysOf]
          have hkeysmet : ∀ ds, svc.metrics = some ds →
              keysOf (partNew BuildMetric (NewServiceID iname nm) svc.metrics) =
                metDeriv1 iname svc := by
            intro ds hds
            have hb := (he3 ds hds).1
            rw [hds] at hb
            rw [hds]
            rw [buildAllG_ok_keys BuildMetric "metric" BuildMetric_shape
              (NewServiceID iname nm) ds 0 [] _ hb]
            rw [metDeriv1_eq_partDeriv iname svc nm hn, hds]
            simp [partDeriv, keysOf]
          have hfreshN : ∀ s ∈ rest,
              svcFresh iname ⟨mon2, met2, ents3, sys.current⟩ s := by
            intro s hs nm2 hnm2
            obtain ⟨g1, g2, g3, g4⟩ := hfrr s hs nm2 hnm2
            have hnm2m : nm2 ∈ rest.filterMap ServiceDoc.sname :=
              List.mem_filterMap.mpr ⟨s, hs, hnm2⟩
            have hcne : (NewServiceID iname nm2).Canonical ≠
                (NewServiceID iname nm).Canonical :=
              fun h => hheadne nm2 hnm2m h.symm
            refine ⟨?_, ?_, ?_, ?_⟩
            · show lookupA (NewServiceID iname nm2).Canonical mon2.services = none
              rw [hm2 _ hcne]
              exact g1
            · show lookupA (NewServiceID iname nm2).Canonical met2.services = none
              rw [he2 _ hcne]
              exact g2
            · intro c hc
              show lookupA c mon2.probes = none
              rw [hm1]
              rw [lookupA_append_left_none _ _ _ (g3 c hc)]
              rw [lookupA_eq_none_iff_not_mem, keysOf_runUp]
              intro hmem
              cases hmon : svc.monitors with
              | none =>
                rw [hmon] at hmem
                simp [partNew, keysOf] at hmem
              | some ds =>
                rw [hkeysmon ds hmon] at hmem
                have ho1 := monDeriv1_owner iname hin svc hclh nm hn c hmem
                have ho2 := monDeriv1_owner iname hin s (hclr s hs) nm2 hnm2 c hc
                rw [ho1] at ho2
                have hnmeq : nm = nm2 :=
                  Option.some.inj (congrArg Prod.snd ho2)
                subst hnmeq
                exact absurd hnm2m hndr.1
            · intro c hc
              show lookupA c met2.probes = none
              rw [he1]
              rw [lookupA_append_left_none _ _ _ (g4 c hc)]
              rw [lookupA_eq_none_iff_not_mem, keysOf_runUp]
              intro hmem
              cases hmet : svc.metrics with
              | none =>
                rw [hmet] at hmem
                simp [partNew, keysOf] at hmem
              | some ds =>
                rw [hkeysmet ds hmet] at hmem
                have ho1 := metDeriv1_owner iname hin svc hclh nm hn c hmem
                have ho2 := metDeriv1_owner iname hin s (hclr s hs) nm2 hnm2 c hc
                rw [ho1] at ho2
                have hnmeq : nm = nm2 :=
                  Option.some.inj (congrArg Prod.snd ho2)
                subst hnmeq
                exact absurd hnm2m hndr.1
          obtain ⟨i1, i2, i3, i4, i5, i6, i7, i8, i9⟩ :=
            ih (i + 1) ⟨mon2, met2, ents3, sys.current⟩ sys1 hok hclr hndr.2 hfreshN
          have i1x : sys1.mon.probes = mon2.probes ++ monNewAll iname rest := i1
          have i2x : sys1.met.probes = met2.probes ++ metNewAll iname rest := i2
          have i9x : sys1.current = sys.current := i9
          refine ⟨?_, ?_, ?_, ?_, ?_, ?_, ?_, ?_, i9x⟩
          · simp only [monNewAll]
            rw [i1x, hm1, monNew_eq_partNew iname svc nm hn, List.append_assoc]
          · simp only [metNewAll]
            rw [i2x, he1, metNew_eq_partNew iname svc nm hn, List.append_assoc]
          · intro sc hsc
            simp only [List.filterMap_cons, hn] at hsc
            have hsch : sc ≠ (NewServiceID iname nm).Canonical :=
              hsc nm (List.mem_cons_self _ _)
            have hscr : ∀ nm2 ∈ rest.filterMap ServiceDoc.sname,
                sc ≠ (NewServiceID iname nm2).Canonical :=
              fun nm2 hm => hsc nm2 (List.mem_cons_of_mem _ hm)
            obtain ⟨j1, j2⟩ := i3 sc hscr
            have j1x : lookupA sc sys1.mon.services = lookupA sc mon2.services := j1
            have j2x : lookupA sc sys1.met.services = lookupA sc met2.services := j2
            constructor
            · rw [j1x]
              exact hm2 sc hsch
            · rw [j2x]
              exact he2 sc hsch
          · intro s hs nm2 hnm2
            rcases List.mem_cons.mp hs with rfl | hs2
            · have hnmeq : nm = nm2 := by
                rw [hn] at hnm2
                exact Option.some.inj hnm2
              subst hnmeq
              have hmn := monNew_eq_partNew iname s nm hn
              have hen := metNew_eq_partNew iname s nm hn
              have j := i3 (NewServiceID iname nm).Canonical hheadne
              have j1x : lookupA (NewServiceID iname nm).Canonical sys1.mon.services =
                  lookupA (NewServiceID iname nm).Canonical mon2.services := j.1
              have j2x : lookupA (NewServiceID iname nm).Canonical sys1.met.services =
                  lookupA (NewServiceID iname nm).Canonical met2.services := j.2
              constructor
              · intro ds hds
                constructor
                · rw [hmn]
                  exact (hm3 ds hds).1
                · rw [j1x, hmn]
                  exact (hm3 ds hds).2
              · intro ds hds
                constructor
                · rw [hen]
                  exact (he3 ds hds).1
                · rw [j2x, hen]
                  exact (he3 ds hds).2
            · exact i4 s hs2 nm2 hnm2
          · intro c hc
            exact i5 c (he5 c (hm5 c hc))
          · intro s hs c hc
            rcases List.mem_cons.mp hs with rfl | hs2
            · rcases hc with hc | hc
              · rw [monNew_eq_partNew iname s nm hn] at hc
                exact i5 c (he5 c (hm6 c hc))
              · rw [metNew_eq_partNew iname s nm hn] at hc
                exact i5 c (he6 c hc)
            · exact i6 s hs2 c hc
          · intro s hs p hp
            rcases List.mem_cons.mp hs with rfl | hs2
            · rw [monNew_eq_partNew iname s nm hn] at hp
              cases hmon : s.monitors with
              | none =>
                rw [hmon] at hp
                simp [partNew] at hp
              | some ds =>
                have hb := (hm3 ds hmon).1
                rw [hmon] at hp hb
                have hnd2 : (keysOf (partNew BuildMonitor (NewServiceID iname nm)
                    (some ds))).Nodup :=
                  buildAllG_ok_nodup BuildMonitor (NewServiceID iname nm) ds 0 [] _
                    hb (by simp [keysOf])
                have hlr := lookupA_runUp _ hnd2 p hp
                have habs0 : lookupA p.1 sys.mon.probes = none := by
                  apply hfr3
                  have hk : p.1 ∈ keysOf (partNew BuildMonitor (NewServiceID iname nm)
                      s.monitors) := by
                    rw [hmon]
                    exact (mem_keysOf_iff _ _).mpr ⟨p.2, hp⟩
                  rw [hkeysmon ds hmon] at hk
                  exact hk
                have hmon2look : lookupA p.1 mon2.probes =
                    some { p.2 with running := true } := by
                  rw [hm1, hmon]
                  rw [lookupA_append_left_none _ _ _ habs0]
                  exact hlr
                rw [i1x]
                exact lookupA_append_left_some _ _ _ _ hmon2look
            · exact i7 s hs2 p hp
          · intro s hs p hp
            rcases List.mem_cons.mp hs with rfl | hs2
            · rw [metNew_eq_partNew iname s nm hn] at hp
              cases hmet : s.metrics with
              | none =>
                rw [hmet] at hp
                simp [partNew] at hp
              | some ds =>
                have hb := (he3 ds hmet).1
                rw [hmet] at hp hb
                have hnd2 : (keysOf (partNew BuildMetric (NewServiceID iname nm)
                    (some ds))).Nodup :=
                  buildAllG_ok_nodup BuildMetric (NewServiceID iname nm) ds 0 [] _
                    hb (by simp [keysOf])
                have hlr := lookupA_runUp _ hnd2 p hp
                have habs0 : lookupA p.1 sys.met.probes = none := by
                  apply hfr4
                  have hk : p.1 ∈ keysOf (partNew BuildMetric (NewServiceID iname nm)
                      s.metrics) := by
                    rw [hmet]
                    exact (mem_keysOf_iff _ _).mpr ⟨p.2, hp⟩
                  rw [hkeysmet ds hmet] at hk
                  exact hk
                have hmet2look : lookupA p.1 met2.probes =
                    some { p.2 with running := true } := by
                  rw [he1, hmet]
                  rw [lookupA_append_left_none _ _ _ habs0]
                  exact hlr
                rw [i2x]
                exact lookupA_append_left_some _ _ _ _ hmet2look
            · exact i8 s hs2 p hp

/-- Reloading services the system already runs exactly as prescribed is a
no-op: every service hits the idempotent path of `LoadService`. -/
theorem loadSvcs_idem (iname : String) :
    ∀ (svcs : List ServiceDoc) (i : Nat) (sys : Sys),
      (∀ svc ∈ svcs, ∀ nm, svc.sname = some nm →
        (∀ ds, svc.monitors = some ds →
          buildAllG BuildMonitor (NewServiceID iname nm) ds 0 [] =
            .ok (monNew iname svc) ∧
          lookupA (NewServiceID iname nm).Canonical sys.mon.services =
            some (keysOf (monNew iname svc)) ∧
          (∀ p ∈ monNew iname svc,
            lookupA p.1 sys.mon.probes = some { p.2 with running := true }) ∧
          (∀ c ∈ keysOf (monNew iname svc), c ∈ sys.ents)) ∧
        (∀ ds, svc.metrics = some ds →
          buildAllG BuildMetric (NewServiceID iname nm) ds 0 [] =
            .ok (metNew iname svc) ∧
          lookupA (NewServiceID iname nm).Canonical sys.met.services =
            some (keysOf (metNew iname svc)) ∧
          (∀ p ∈ metNew iname svc,
            lookupA p.1 sys.met.probes = some { p.2 with running := true }) ∧
          (∀ c ∈ keysOf (metNew iname svc), c ∈ sys.ents))) →
      (∀ svc ∈ svcs, svc.sname ≠ none) →
      loadSvcs iname svcs i sys = .ok sys := by
  intro svcs
  induction svcs with
  | nil =>
    intro i sys h hnn
    rfl
  | cons svc rest ihh =>
    intro i sys h hnn
    have hname := hnn svc (List.mem_cons_self _ _)
    cases hn : svc.sname with
    | none => exact absurd hn hname
    | some nm =>
      obtain ⟨hm, he⟩ := h svc (List.mem_cons_self _ _) nm hn
      have hmp : loadSchedPart BuildMonitor iname nm "monitors" svc.monitors
          sys.mon sys.ents = .ok sys.mon sys.ents := by
        cases hmon : svc.monitors with
        | none => rfl
        | some ds =>
          obtain ⟨hb, hlook, hinst, hents⟩ := hm ds hmon
          simp only [loadSchedPart]
          have hls := LoadService_idem BuildMonitor (NewServiceID iname nm) ds
            sys.mon sys.ents (monNew iname svc) hb hlook hinst hents
          rw [hls]
      have hep : loadSchedPart BuildMetric iname nm "metrics" svc.metrics
          sys.met sys.ents = .ok sys.met sys.ents := by
        cases hmet : svc.metrics with
        | none => rfl
        | some ds =>
          obtain ⟨hb, hlook, hinst, hents⟩ := he ds hmet
          simp only [loadSchedPart]
          have hls := LoadService_idem BuildMetric (NewServiceID iname nm) ds
            sys.met sys.ents (metNew iname svc) hb hlook hinst hents
          rw [hls]
      simp only [loadSvcs, hn, hmp, hep]
      exact ihh (i + 1) sys (fun s hs => h s (List.mem_cons_of_mem _ hs))
        (fun s hs => hnn s (List.mem_cons_of_mem _ hs))

/-- Every service entry of a document `loadSvcs` accepts carries a name. -/
theorem loadSvcs_ok_names (iname : String) :
    ∀ (svcs : List ServiceDoc) (i : Nat) (sys sys1 : Sys),
      loadSvcs iname svcs i sys = .ok sys1 →
      ∀ svc ∈ svcs, svc.sname ≠ none := by
  intro svcs
  induction svcs with
  | nil =>
    intro i sys sys1 h svc hsvc
    simp at hsvc
  | cons svc rest ihh =>
    intro i sys sys1 h s hs
    cases hn : svc.sname with
    | none =>
      simp only [loadSvcs, hn] at h
      cases h
    | some nm =>
      simp only [loadSvcs, hn] at h
      cases hmp : loadSchedPart BuildMonitor iname nm "monitors" svc.monitors
          sys.mon sys.ents with
      | crash =>
        simp only [hmp] at h
        cases h
      | fail e =>
        simp only [hmp] at h
        cases h
      | ok mon2 ents2 =>
        simp only [hmp] at h
        cases hep : loadSchedPart BuildMetric iname nm "metrics" svc.metrics
            sys.met ents2 with
        | crash =>
          simp only [hep] at h
          cases h
        | fail e =>
          simp only [hep] at h
          cases h
        | ok met2 ents3 =>
          simp only [hep] at h
          rcases List.mem_cons.mp hs with rfl | hs2
          · rw [hn]
            intro hcon
            cases hcon
          · exact ihh (i + 1) _ sys1 h s hs2

theorem keysOf_monNewAll (iname : String) :
    ∀ svcs : List ServiceDoc,
      (∀ svc ∈ svcs, ∀ nm, svc.sname = some nm → ∀ ds, svc.monitors = some ds →
        buildAllG BuildMonitor (NewServiceID iname nm) ds 0 [] =
          .ok (monNew iname svc)) →
      keysOf (monNewAll iname svcs) =
        svcs.foldr (fun svc acc => monDeriv1 iname svc ++ acc) [] := by
  intro svcs
  induction svcs with
  | nil =>
    intro h
    rfl
  | cons svc rest ihh =>
    intro h
    simp only [monNewAll, List.foldr_cons]
    rw [keysOf_append, keysOf_runUp]
    rw [ihh (fun s hs => h s (List.mem_cons_of_mem _ hs))]
    congr 1
    cases hn : svc.sname with
    | none =>
      unfold monNew monDeriv1
      rw [hn]
      rfl
    | some nm =>
      cases hm : svc.monitors with
      | none =>
        unfold monNew monDeriv1
        rw [hn, hm]
        rfl
      | some ds =>
        have hb := h svc (List.mem_cons_self _ _) nm hn ds hm
        exact (monNew_keys iname svc nm ds hn hm (monNew iname svc) hb).2

theorem keysOf_metNewAll (iname : String) :
    ∀ svcs : List ServiceDoc,
      (∀ svc ∈ svcs, ∀ nm, svc.sname = some nm → ∀ ds, svc.metrics = some ds →
        buildAllG BuildMetric (NewServiceID iname nm) ds 0 [] =
          .ok (metNew iname svc)) →
      keysOf (metNewAll iname svcs) =
        svcs.foldr (fun svc acc => metDeriv1 iname svc ++ acc) [] := by
  intro svcs
  induction svcs with
  | nil =>
    intro h
    rfl
  | cons svc rest ihh =>
    intro h
    simp only [metNewAll, List.foldr_cons]
    rw [keysOf_append, keysOf_runUp]
    rw [ihh (fun s hs => h s (List.mem_cons_of_mem _ hs))]
    congr 1
    cases hn : svc.sname with
    | none =>
      unfold metNew metDeriv1
      rw [hn]
      rfl
    | some nm =>
      cases hm : svc.metrics with
      | none =>
        unfold metNew metDeriv1
        rw [hn, hm]
        rfl
      | some ds =>
        have hb := h svc (List.mem_cons_self _ _) nm hn ds hm
        exact (metNew_keys iname svc nm ds hn hm (metNew iname svc) hb).2

/-- C1 (amended).  Starting from the initial (empty) system, for every
clean configuration document with pairwise-distinct service names that
`LoadConfig` accepts, the set of probe IDs present and running in the
monitor scheduler equals the set of monitor canonical IDs derivable from
the document, likewise for the metric scheduler; and a second
`LoadConfig` of the identical document returns the identical system, so
the running sets after one and after two calls agree.  The from-initial
restriction is necessary: `LoadConfig` never removes a service absent
from the new document, so from a previously applied state stale probes
survive a successful reload. -/
theorem C1_convergence_amended (doc : InstanceDoc) (sys1 : Sys)
    (hclean : cleanDoc doc)
    (hok : LoadConfig doc initSys = .ok sys1) :
    (∀ c, c ∈ runningKeys sys1.mon ↔ c ∈ monDerivable doc) ∧
    (∀ c, c ∈ runningKeys sys1.met ↔ c ∈ metDerivable doc) ∧
    LoadConfig doc sys1 = .ok sys1 := by
  obtain ⟨hincl, hsvccl, hndn⟩ := hclean
  unfold LoadConfig at hok
  by_cases hip : instanceProblems doc ≠ []
  · rw [if_pos hip] at hok
    cases hok
  · rw [if_neg hip] at hok
    have hok0 : loadSvcs doc.iname doc.services 0
        (⟨emptySched, emptySched, [], some doc⟩ : Sys) = .ok sys1 := hok
    have hfresh0 : ∀ svc ∈ doc.services,
        svcFresh doc.iname ⟨emptySched, emptySched, [], some doc⟩ svc := by
      intro svc hs nm hnm
      exact ⟨rfl, rfl, fun c hc => rfl, fun c hc => rfl⟩
    obtain ⟨p1, p2, p3, p4, p5, p6, p7, p8, p9⟩ :=
      loadSvcs_fresh_spec doc.iname hincl doc.services 0 _ sys1 hok0 hsvccl
        hndn hfresh0
    have p1x : sys1.mon.probes = monNewAll doc.iname doc.services := by
      have h0 : sys1.mon.probes = [] ++ monNewAll doc.iname doc.services := p1
      rw [List.nil_append] at h0
      exact h0
    have p2x : sys1.met.probes = metNewAll doc.iname doc.services := by
      have h0 : sys1.met.probes = [] ++ metNewAll doc.iname doc.services := p2
      rw [List.nil_append] at h0
      exact h0
    have p9x : sys1.current = some doc := p9
    have hkm : keysOf (monNewAll doc.iname doc.services) = monDerivable doc :=
      keysOf_monNewAll doc.iname doc.services
        (fun svc hs nm hnm ds hds => ((p4 svc hs nm hnm).1 ds hds).1)
    have hke : keysOf (metNewAll doc.iname doc.services) = metDerivable doc :=
      keysOf_metNewAll doc.iname doc.services
        (fun svc hs nm hnm ds hds => ((p4 svc hs nm hnm).2 ds hds).1)
    have hrunm : runningKeys sys1.mon = keysOf sys1.mon.probes := by
      have h0 : runningKeys ⟨sys1.mon.probes, sys1.mon.services⟩ =
          keysOf sys1.mon.probes :=
        runningKeys_all_running sys1.mon.probes (by
          rw [p1x]
          exact monNewAll_running doc.iname doc.services)
      exact h0
    have hrune : runningKeys sys1.met = keysOf sys1.met.probes := by
      have h0 : runningKeys ⟨sys1.met.probes, sys1.met.services⟩ =
          keysOf sys1.met.probes :=
        runningKeys_all_running sys1.met.probes (by
          rw [p2x]
          exact metNewAll_running doc.iname doc.services)
      exact h0
    refine ⟨?_, ?_, ?_⟩
    · intro c
      rw [hrunm, p1x, hkm]
    · intro c
      rw [hrune, p2x, hke]
    · unfold LoadConfig
      rw [if_neg hip]
      have heta : (⟨sys1.mon, sys1.met, sys1.ents, some doc⟩ : Sys) = sys1 := by
        rw [← p9x]
      rw [heta]
      refine loadSvcs_idem doc.iname doc.services 0 sys1 ?_ ?_
      · intro svc hsvc nm hnm
        refine ⟨?_, ?_⟩
        · intro ds hds
          exact ⟨((p4 svc hsvc nm hnm).1 ds hds).1, ((p4 svc hsvc nm hnm).1 ds hds).2,
            p7 svc hsvc, fun c hc => p6 svc hsvc c (Or.inl hc)⟩
        · intro ds hds
          exact ⟨((p4 svc hsvc nm hnm).2 ds hds).1, ((p4 svc hsvc nm hnm).2 ds hds).2,
            p8 svc hsvc, fun c hc => p6 svc hsvc c (Or.inr hc)⟩
      · exact loadSvcs_ok_names doc.iname doc.services 0 _ sys1 hok0

/-- C1 counterexample.  From a previously applied state, a successful
`LoadConfig` does not make the running monitor set equal the derivable
set: after loading a document with service `s1` and monitor `m` and then
a document containing only the (empty) service `s2`, the second call
succeeds, derives no monitor, yet `m` is still present and running —
`LoadConfig` never removes services absent from the new document. -/
theorem C1_claim_counterexample :
    ∃ sys1 sys2,
      LoadConfig ⟨"i", [⟨some "s1",
          some [{ ptype := "http", pname := "m", interval := 60,
                  url := "http://x" }], none⟩]⟩ initSys = .ok sys1 ∧
      LoadConfig ⟨"i", [⟨some "s2", none, none⟩]⟩ sys1 = .ok sys2 ∧
      monDerivable ⟨"i", [⟨some "s2", none, none⟩]⟩ = [] ∧
      "instance=i|kind=monitor|name=m|service=s1|type=http" ∈
        runningKeys sys2.mon := by
  refine ⟨_, _, rfl, rfl, rfl, ?_⟩
  decide

/-- Witness instantiating `C1_convergence_amended` on a one-service,
one-monitor document. -/
theorem C1_convergence_amended_witness :
    ("instance=i|kind=monitor|name=m|service=s1|type=http" ∈
        runningKeys (⟨⟨[("instance=i|kind=monitor|name=m|service=s1|type=http",
            ⟨⟨"monitor", [("instance", "i"), ("service", "s1"), ("type", "http"),
                ("name", "m")]⟩,
              "instance=i|kind=monitor|name=m|service=s1|type=http",
              { ptype := "http", pname := "m", interval := 60, url := "http://x" },
              true⟩)],
          [("instance=i|kind=service|name=s1",
            ["instance=i|kind=monitor|name=m|service=s1|type=http"])]⟩,
          ⟨[], []⟩,
          ["instance=i|kind=monitor|name=m|service=s1|type=http"],
          some ⟨"i", [⟨some "s1",
            some [{ ptype := "http", pname := "m", interval := 60, url := "http://x" }],
            none⟩]⟩⟩ : Sys).mon ↔
      "instance=i|kind=monitor|name=m|service=s1|type=http" ∈
        monDerivable ⟨"i", [⟨some "s1",
          some [{ ptype := "http", pname := "m", interval := 60, url := "http://x" }],
          none⟩]⟩) ∧
    LoadConfig ⟨"i", [⟨some "s1",
        some [{ ptype := "http", pname := "m", interval := 60, url := "http://x" }],
        none⟩]⟩
      ⟨⟨[("instance=i|kind=monitor|name=m|service=s1|type=http",
          ⟨⟨"monitor", [("instance", "i"), ("service", "s1"), ("type", "http"),
              ("name", "m")]⟩,
            "instance=i|kind=monitor|name=m|service=s1|type=http",
            { ptype := "http", pname := "m", interval := 60, url := "http://x" },
            true⟩)],
        [("instance=i|kind=service|name=s1",
          ["instance=i|kind=monitor|name=m|service=s1|type=http"])]⟩,
        ⟨[], []⟩,
        ["instance=i|kind=monitor|name=m|service=s1|type=http"],
        some ⟨"i", [⟨some "s1",
          some [{ ptype := "http", pname := "m", interval := 60, url := "http://x" }],
          none⟩]⟩⟩ =
      .ok ⟨⟨[("instance=i|kind=monitor|name=m|service=s1|type=http",
          ⟨⟨"monitor", [("instance", "i"), ("service", "s1"), ("type", "http"),
              ("name", "m")]⟩,
            "instance=i|kind=monitor|name=m|service=s1|type=http",
            { ptype := "http", pname := "m", interval := 60, url := "http://x" },
            true⟩)],
        [("instance=i|kind=service|name=s1",
          ["instance=i|kind=monitor|name=m|service=s1|type=http"])]⟩,
        ⟨[], []⟩,
        ["instance=i|kind=monitor|name=m|service=s1|type=http"],
        some ⟨"i", [⟨some "s1",
          some [{ ptype := "http", pname := "m", interval := 60, url := "http://x" }],
          none⟩]⟩⟩ := by
  have h := C1_convergence_amended
    ⟨"i", [⟨some "s1",
      some [{ ptype := "http", pname := "m", interval := 60, url := "http://x" }],
      none⟩]⟩
    ⟨⟨[("instance=i|kind=monitor|name=m|service=s1|type=http",
        ⟨⟨"monitor", [("instance", "i"), ("service", "s1"), ("type", "http"),
            ("name", "m")]⟩,
          "instance=i|kind=monitor|name=m|service=s1|type=http",
          { ptype := "http", pname := "m", interval := 60, url := "http://x" },
          true⟩)],
      [("instance=i|kind=service|name=s1",
        ["instance=i|kind=monitor|name=m|service=s1|type=http"])]⟩,
      ⟨[], []⟩,
      ["instance=i|kind=monitor|name=m|service=s1|type=http"],
      some ⟨"i", [⟨some "s1",
        some [{ ptype := "http", pname := "m", interval := 60, url := "http://x" }],
        none⟩]⟩⟩
    (by decide) (by decide)
  exact ⟨h.1 _, h.2.2⟩

end Meerkat
